import Mathlib

/-!
A verification model of the per-document coordination engine of the
ndcodfapi service: the `DocumentBroker` of `wsd/DocumentBroker.cpp`.

The broker state is embedded as a Lean structure; each broker member
function that the verified properties touch is translated into a pure
function from the old state (plus the inputs the C++ code reads from the
clock, the filesystem and the storage backend) to the new state, the
outward effects (frames sent to the child kit and to client sessions,
poll wakeups, storage uploads) and the return value.

Times are modelled as integer milliseconds of the steady clock;
`Poco::Timestamp` values (file modification times) as integers, with 0
standing for the epoch.
-/

namespace DocBroker

/-- Result of `StorageBase::saveLocalFileToStorage` (`StorageBase::SaveResult`). -/
inductive SaveResult
  | ok
  | diskfull
  | unauthorized
  | failed
  deriving Repr, DecidableEq

/-- The storage binding held by a broker: its concrete kind and whether the
document file has already been downloaded into the jail (`isLoaded()`). -/
inductive StorageKind
  | wopi
  | localFs
  deriving Repr, DecidableEq

structure Storage where
  kind : StorageKind
  loaded : Bool
  deriving Repr, DecidableEq

/-- The per-session state the broker reads or writes: permissions, the
close-frame flag, ownership, the view-loaded flag, the access token and the
decoded query parameters of the session's public URI. The session id is the
key under which the session is stored in the broker's session map. -/
structure Session where
  readOnly : Bool
  closeFrame : Bool
  documentOwner : Bool
  viewLoaded : Bool
  attached : Bool
  accessToken : String
  queryParams : List (String × String)
  deriving Repr, DecidableEq

/-- Outward effects of a broker operation: text frames sent to the child kit,
text frames sent to client sessions (paired with the session id), poll
wakeups, and storage upload attempts. -/
structure Effects where
  childMsgs : List String
  sessionMsgs : List (String × String)
  wakeups : Nat
  uploads : Nat
  deriving Repr, DecidableEq

def Effects.nil : Effects := ⟨[], [], 0, 0⟩

def Effects.app (a b : Effects) : Effects :=
  ⟨a.childMsgs ++ b.childMsgs, a.sessionMsgs ++ b.sessionMsgs,
   a.wakeups + b.wakeups, a.uploads + b.uploads⟩

/-- The mutable broker state of `DocumentBroker`: the session map (an
association list keyed by session id, as `std::map<std::string, ...>`), the
storage binding, the lifecycle flags, and the timestamps. The tile cache is
represented by its unsaved-changes flag. -/
structure BrokerState where
  docKey : String
  docId : String
  sessions : List (String × Session)
  storage : Option Storage
  isLoaded : Bool
  isModified : Bool
  tileCacheUnsaved : Bool
  markToDestroy : Bool
  lastEditableSession : Bool
  stop : Bool
  childAlive : Bool
  lastSaveTime : Int
  lastSaveRequestTime : Int
  lastFileModifiedTime : Int
  documentLastModifiedTime : Int
  lastActivityTime : Int
  uriJailed : String
  filename : String
  deriving Repr, DecidableEq

/-- Lookup in the session map (`_sessions.find(id)`). -/
def findSession (sessions : List (String × Session)) (id : String) :
    Option (String × Session) :=
  sessions.find? (fun p => p.1 == id)

/-- Erase one entry from the session map (`_sessions.erase(it)`). -/
def eraseSession (sessions : List (String × Session)) (id : String) :
    List (String × Session) :=
  sessions.eraseP (fun p => p.1 == id)

/-- Insert a session if its id is not already present (`_sessions.emplace`). -/
def emplaceSession (sessions : List (String × Session)) (id : String)
    (s : Session) : List (String × Session) :=
  if (findSession sessions id).isSome then sessions else sessions ++ [(id, s)]

/-- Modelled from the spec: `LOOLProtocol::tokenize` (Protocol code, not under
src/) splits a message on spaces and newlines, dropping empty tokens. -/
def splitTokensAux : List Char → List Char → List (List Char)
  | [], acc => if acc.isEmpty then [] else [acc.reverse]
  | c :: rest, acc =>
      if c = ' ' ∨ c = '\n' then
        if acc.isEmpty then splitTokensAux rest []
        else acc.reverse :: splitTokensAux rest []
      else splitTokensAux rest (c :: acc)

def tokenizeMsg (s : String) : List String :=
  (splitTokensAux s.data []).map (fun l => String.mk l)

/-- Translation of `DocumentBroker::forwardToChild`: wrap the payload as
`child-<viewId> <message>`, rewrite `load` commands to carry the jailed URI,
and send the frame to the kit if the session exists. -/
def forwardToChild (st : BrokerState) (viewId message : String) :
    BrokerState × Effects × Bool :=
  let msg := "child-" ++ viewId ++ " " ++ message
  match findSession st.sessions viewId with
  | some _ =>
      let tokens := tokenizeMsg msg
      let msg :=
        if tokens.length > 1 ∧ tokens[1]? = some "load" then
          ((tokens.getD 0 "") ++ " " ++ (tokens.getD 1 "") ++ " " ++ (tokens.getD 2 "")
            ++ " jail=" ++ st.uriJailed ++ " "
            ++ String.intercalate " " (tokens.drop 3))
        else msg
      (st, { Effects.nil with childMsgs := [msg] }, true)
  | none => (st, Effects.nil, false)

/-- The JSON argument object built by `DocumentBroker::sendUnoSave`. -/
def saveArgsJson (dontTerminateEdit dontSaveIfUnmodified : Bool) : String :=
  "\x7b"
    ++ (if dontTerminateEdit then
          "\"DontTerminateEdit\":\x7b\"type\":\"boolean\",\"value\":true\x7d"
        else "")
    ++ (if dontSaveIfUnmodified then
          (if dontTerminateEdit then "," else "")
            ++ "\"DontSaveIfUnmodified\":\x7b\"type\":\"boolean\",\"value\":true\x7d"
        else "")
    ++ "\x7d"

/-- Translation of `DocumentBroker::sendUnoSave`: if the session exists, zero
the recorded local file modification time, forward `uno .uno:Save {...}` to
the kit through that session, stamp the save-request time, and return true. -/
def sendUnoSave (st : BrokerState) (now : Int) (sessionId : String)
    (dontTerminateEdit dontSaveIfUnmodified : Bool) :
    BrokerState × Effects × Bool :=
  match findSession st.sessions sessionId with
  | some _ =>
      let st := { st with lastFileModifiedTime := 0 }
      let command := "uno .uno:Save " ++ saveArgsJson dontTerminateEdit dontSaveIfUnmodified
      let r := forwardToChild st sessionId command
      ({ r.1 with lastSaveRequestTime := now }, r.2.1, true)
  | none => (st, Effects.nil, false)

/-- The session-picking loop of `DocumentBroker::autoSave`: the first session
encountered, or the first document-owner session (which breaks the loop). -/
def pickSavingSession : List (String × Session) → String → String
  | [], acc => acc
  | (i, s) :: rest, acc =>
      let acc := if acc = "" then i else acc
      if s.documentOwner then i else pickSavingSession rest acc

/-- Translation of `DocumentBroker::autoSave`. `idleSaveMs` and `autoSaveMs`
stand for the `IdleSaveDurationMs` and `AutoSaveDurationMs` constants and
`dontTerminateEdit`/`dontSaveIfUnmodified` for the default arguments of
`sendUnoSave`, both declared in the header (not under src/). -/
def autoSave (st : BrokerState) (now : Int) (force : Bool)
    (dontTerminateEdit dontSaveIfUnmodified : Bool) (idleSaveMs autoSaveMs : Int) :
    BrokerState × Effects × Bool :=
  if st.sessions.isEmpty ∨ st.storage = none ∨ st.isLoaded = false ∨
      st.childAlive = false ∨ (st.isModified = false ∧ force = false) then
    (st, Effects.nil, false)
  else
    let savingSessionId := pickSavingSession st.sessions ""
    if force then
      sendUnoSave st now savingSessionId dontTerminateEdit dontSaveIfUnmodified
    else if st.isModified then
      if now - st.lastActivityTime ≥ idleSaveMs ∨ now - st.lastSaveTime ≥ autoSaveMs then
        sendUnoSave st now savingSessionId dontTerminateEdit dontSaveIfUnmodified
      else (st, Effects.nil, false)
    else (st, Effects.nil, false)

/-- Translation of `DocumentBroker::saveToStorageInternal`. Besides the state
it takes the values the C++ code reads from the environment: the clock
(`now`), the jailed file's current modification time on disk
(`newFileModifiedTime`), the upload outcome the storage backend would report
(`uploadResult`), and the storage-reported document modification time fetched
after a successful upload (`freshStorageMtime`). -/
def saveToStorageInternal (st : BrokerState)
    (now newFileModifiedTime freshStorageMtime : Int) (uploadResult : SaveResult)
    (sessionId : String) (success : Bool) (result : String) :
    BrokerState × Effects × Bool :=
  if success = false ∧ result = "unmodified" then
    ({ st with lastSaveTime := now }, { Effects.nil with wakeups := 1 }, true)
  else
    match findSession st.sessions sessionId with
    | none => (st, Effects.nil, false)
    | some _ =>
        if st.lastEditableSession = false ∧ newFileModifiedTime = st.lastFileModifiedTime then
          ({ st with lastSaveTime := now }, { Effects.nil with wakeups := 1 }, true)
        else
          match uploadResult with
          | .ok =>
              ({ st with isModified := false, tileCacheUnsaved := false,
                         lastFileModifiedTime := newFileModifiedTime,
                         lastSaveTime := now,
                         documentLastModifiedTime := freshStorageMtime },
               { Effects.nil with wakeups := 1, uploads := 1 }, true)
          | .diskfull =>
              ({ st with sessions :=
                    st.sessions.map (fun p => (p.1, { p.2 with readOnly := true })) },
               { Effects.nil with
                   sessionMsgs :=
                     st.sessions.map (fun p => (p.1, "error: cmd=storage kind=savediskfull")),
                   uploads := 1 }, false)
          | .unauthorized =>
              (st, { Effects.nil with
                       sessionMsgs := [(sessionId, "error: cmd=storage kind=saveunauthorized")],
                       uploads := 1 }, false)
          | .failed =>
              (st, { Effects.nil with
                       sessionMsgs := [(sessionId, "error: cmd=storage kind=savefailed")],
                       uploads := 1 }, false)

/-- Translation of `DocumentBroker::removeSessionInternal`: erase the session
if present, tell the kit `child-<id> disconnect`, return the session count. -/
def removeSessionInternal (st : BrokerState) (id : String) :
    BrokerState × Effects × Nat :=
  match findSession st.sessions id with
  | some _ =>
      let sessions := eraseSession st.sessions id
      ({ st with sessions := sessions },
       { Effects.nil with childMsgs := ["child-" ++ id ++ " disconnect"] },
       sessions.length)
  | none => (st, Effects.nil, st.sessions.length)

/-- Translation of `DocumentBroker::saveToStorage`: run the inner save, then
remove the originating session when the broker is marked to destroy or that
session has sent its close frame, and set `stop` when marked to destroy or
the session map has become empty. -/
def saveToStorage (st : BrokerState)
    (now newFileModifiedTime freshStorageMtime : Int) (uploadResult : SaveResult)
    (sessionId : String) (success : Bool) (result : String) :
    BrokerState × Effects × Bool :=
  let r := saveToStorageInternal st now newFileModifiedTime freshStorageMtime
              uploadResult sessionId success result
  let st1 := r.1
  let closing := match findSession st1.sessions sessionId with
                 | some p => p.2.closeFrame
                 | none => false
  let r2 := if st1.markToDestroy || closing then
              let q := removeSessionInternal st1 sessionId
              (q.1, q.2.1)
            else (st1, Effects.nil)
  let st2 := r2.1
  let st3 := if st2.markToDestroy || st2.sessions.isEmpty then
               { st2 with stop := true }
             else st2
  (st3, (r.2.1).app r2.2, r.2.2)

/-- Translation of `DocumentBroker::destroyIfLastEditor`: recompute
`_lastEditableSession` (the departing session is a writer and no other loaded
writer remains) and `_markToDestroy` (no other session remains). -/
def destroyIfLastEditor (st : BrokerState) (id : String) : BrokerState :=
  match findSession st.sessions id with
  | none => st
  | some p =>
      let lastEditable0 := p.2.readOnly = false
      let lastEditable :=
        if lastEditable0 ∧ st.sessions.isEmpty = false then
          if st.sessions.any (fun q => q.1 != id && q.2.viewLoaded && !q.2.readOnly)
          then False
          else True
        else lastEditable0
      { st with lastEditableSession := decide lastEditable,
                markToDestroy := decide (st.sessions.length ≤ 1) }

/-- Translation of `DocumentBroker::removeSession`: recompute the teardown
flags when `destroyIfLast`, then remove immediately unless the departing
session was the last editable one and a forced autosave was sent, in which
case the removal is deferred to the save-completion path. -/
def removeSession (st : BrokerState) (now : Int) (id : String)
    (destroyIfLast : Bool) (dontTerminateEdit dontSaveIfUnmodified : Bool)
    (idleSaveMs autoSaveMs : Int) : BrokerState × Effects × Nat :=
  let st := if destroyIfLast then destroyIfLastEditor st id else st
  if st.lastEditableSession = false then
    removeSessionInternal st id
  else
    let r := autoSave st now true dontTerminateEdit dontSaveIfUnmodified idleSaveMs autoSaveMs
    if r.2.2 then (r.1, r.2.1, r.1.sessions.length)
    else
      let q := removeSessionInternal r.1 id
      (q.1, (r.2.1).app q.2.1, q.2.2)

/-- Translation of `DocumentBroker::setModified`: set the tile cache's
unsaved-changes flag and the broker's modified flag to the same value. -/
def setModified (st : BrokerState) (value : Bool) : BrokerState :=
  { st with tileCacheUnsaved := value, isModified := value }

/-- Translation of `DocumentBroker::stop` (also the tail of
`terminateChild`): raise the stop flag and wake the poll. -/
def stopBroker (st : BrokerState) : BrokerState × Effects :=
  ({ st with stop := true }, { Effects.nil with wakeups := 1 })

/-- Configuration and flags read by one iteration of the poll loop of
`DocumentBroker::pollThread`: the process-wide shutdown request, the
`LOOL_NO_AUTOSAVE` switch, the `autosave.autosaving` interval in seconds, the
`per_document.idle_timeout_secs` limit, the command timeout in milliseconds,
and the arguments threaded into `autoSave`. -/
structure PollCtx where
  shutdownRequestFlag : Bool
  autoSaveEnabled : Bool
  savingtimeSecs : Int
  idleDocTimeoutSecs : Int
  cmdTimeoutMs : Int
  dontTerminateEdit : Bool
  dontSaveIfUnmodified : Bool
  idleSaveMs : Int
  autoSaveMs : Int
  deriving Repr, DecidableEq

/-- Loop-local state of `pollThread`: the broker state plus the `closeReason`
and `last30SecCheckTime` locals. -/
structure PollIter where
  st : BrokerState
  closeReason : String
  last30SecCheckTime : Int
  deriving Repr, DecidableEq

/-- Modelled from the spec: `getIdleTimeSecs` (declared in the broker header,
not under src/) is the whole number of seconds since the last recorded
session activity. -/
def getIdleTimeSecs (st : BrokerState) (now : Int) : Int :=
  (now - st.lastActivityTime) / 1000

/-- Translation of one iteration of the main polling loop of
`DocumentBroker::pollThread` (the body after `_poll->poll(...)` returns):
first the save-in-progress gate, then the shutdown check, the autosave tick,
and the idle/dead termination check. -/
def pollIteration (ctx : PollCtx) (ps : PollIter) (now : Int) :
    PollIter × Effects :=
  if ps.st.lastSaveTime < ps.st.lastSaveRequestTime ∧
      now - ps.st.lastSaveRequestTime ≤ ctx.cmdTimeoutMs then
    (ps, Effects.nil)
  else
    let step :=
      if ctx.shutdownRequestFlag then
        ({ ps.st with stop := true }, "recycling", ps.last30SecCheckTime, Effects.nil)
      else if ctx.autoSaveEnabled = true ∧ ps.st.stop = false ∧
          (now - ps.last30SecCheckTime) / 1000 ≥ ctx.savingtimeSecs then
        let r := autoSave ps.st now true ctx.dontTerminateEdit
                    ctx.dontSaveIfUnmodified ctx.idleSaveMs ctx.autoSaveMs
        (r.1, ps.closeReason, now, r.2.1)
      else (ps.st, ps.closeReason, ps.last30SecCheckTime, Effects.nil)
    let st := step.1
    let idle := getIdleTimeSecs st now ≥ ctx.idleDocTimeoutSecs
    if (st.isLoaded || st.markToDestroy) && (st.sessions.isEmpty || decide idle) then
      ({ st := { st with stop := true },
         closeReason := if idle then "idle" else "dead",
         last30SecCheckTime := step.2.2.1 }, step.2.2.2)
    else
      ({ st := st, closeReason := step.2.1, last30SecCheckTime := step.2.2.1 }, step.2.2.2)

/-- Translation of `DocumentBroker::tokenUsed`: consult the persistent token
table (modelled as the list of previously inserted tokens); if the token is
already present, return false without touching the table, otherwise insert
it and return true. -/
def tokenUsed (ledger : List String) (accessToken : String) :
    Bool × List String :=
  if accessToken ∈ ledger then (false, ledger)
  else (true, ledger ++ [accessToken])

/-- The WOPI file information`getWOPIFileInfo` returns (the fields `load`
reads). -/
structure WopiInfo where
  userid : String
  username : String
  userCanWrite : Bool
  ownerId : String
  postMessageOrigin : String
  filename : String
  hidePrintOption : Bool
  hideSaveOption : Bool
  hideExportOption : Bool
  disablePrint : Bool
  disableExport : Bool
  disableCopy : Bool
  deriving Repr, DecidableEq

/-- The values `DocumentBroker::load` reads from its collaborators: the
`UnitWSD::filterLoad` test hook (none in production), the storage instance
`StorageBase::create` would yield when the broker has none yet, the WOPI or
local file information, the validity and storage modification time of the
file info, whether the download runs out of disk space, the local file's
modification time after download, the TLS switches, and the rendering of the
`perm.xml` permission table (read from a config file outside the source). -/
structure LoadEnv where
  filterLoadHook : Option Bool
  createdStorage : Option Storage
  wopiInfo : WopiInfo
  localUserid : String
  localUsername : String
  fileInfoValid : Bool
  fileInfoModifiedTime : Int
  fileInfoFilename : String
  diskFull : Bool
  localFileMtime : Int
  jailedPath : String
  sslEnabled : Bool
  permLookup : String → String
  wopiLoadDurationMs : Int

/-- Exceptions `load` can propagate: `StorageConnectionException` from the
token-replay check, and `StorageSpaceLowException` from the download. -/
inductive LoadExc
  | storageConn
  | spaceLow
  deriving Repr, DecidableEq

/-- Result of a completed (non-throwing) `load` call: the new broker state,
the (possibly updated) session, the token table, the frames sent, and the
boolean return value. -/
structure LoadOk where
  st : BrokerState
  sess : Session
  ledger : List String
  fx : Effects
  ok : Bool

/-- The scheme rewrite applied to `PostMessageOrigin` when TLS is on. -/
def rewriteOrigin (origin : String) (sslEnabled : Bool) : String :=
  if origin.take 7 = "http://" ∧ sslEnabled then
    "https://" ++ origin.drop 7
  else origin

/-- The JSON of WOPI host properties sent to the client as `wopi: {...}`. -/
def wopiInfoJson (w : WopiInfo) (sslEnabled : Bool) : String :=
  "\x7b"
    ++ (if w.postMessageOrigin ≠ "" then
          "\"PostMessageOrigin\":\"" ++ rewriteOrigin w.postMessageOrigin sslEnabled ++ "\","
        else "")
    ++ "\"HidePrintOption\":" ++ toString w.hidePrintOption
    ++ ",\"HideSaveOption\":" ++ toString w.hideSaveOption
    ++ ",\"HideExportOption\":" ++ toString w.hideExportOption
    ++ ",\"DisablePrint\":" ++ toString w.disablePrint
    ++ ",\"DisableExport\":" ++ toString w.disableExport
    ++ ",\"DisableCopy\":" ++ toString w.disableCopy
    ++ ",\"title\":\"" ++ w.filename ++ "\"\x7d"

/-- The `permission` query parameter lookup of the local-storage branch of
`load` (default "edit"). -/
def queryParamOr (params : List (String × String)) (key dflt : String) : String :=
  match params.reverse.find? (fun p => p.1 == key) with
  | some p => p.2
  | none => dflt

/-- Tail of `DocumentBroker::load` shared by the WOPI and local branches:
validate the file info, record the storage timestamp on first instance,
download the file into the jail if not yet loaded (recording the local
modification time and creating the tile cache), and report success. -/
def loadTail (st : BrokerState) (sid : String) (sess : Session)
    (ledger : List String) (env : LoadEnv) (fx : Effects) (firstInstance : Bool)
    (stor : Storage) : Except LoadExc LoadOk :=
  if env.fileInfoValid = false then
    .ok ⟨st, sess, ledger, fx, false⟩
  else
    let st := if firstInstance then
                { st with documentLastModifiedTime := env.fileInfoModifiedTime }
              else st
    if stor.loaded = false then
      if env.diskFull then .error .spaceLow
      else
        let st := { st with
          storage := some { stor with loaded := true },
          uriJailed := "file://" ++ env.jailedPath,
          filename := env.fileInfoFilename,
          lastFileModifiedTime := env.localFileMtime,
          -- Modelled from the spec: the tile cache is recreated for the
          -- freshly downloaded file (TileCache code is not under src/); a
          -- new cache has no unsaved changes.
          tileCacheUnsaved := false }
        let fx := if stor.kind = .wopi then
                    fx.app { Effects.nil with
                      sessionMsgs := [(sid, "stats: wopiloadduration "
                                              ++ toString env.wopiLoadDurationMs)] }
                  else fx
        .ok ⟨st, sess, ledger, fx, true⟩
    else
      let fx := if stor.kind = .wopi then
                  fx.app { Effects.nil with
                    sessionMsgs := [(sid, "stats: wopiloadduration "
                                            ++ toString env.wopiLoadDurationMs)] }
                else fx
      .ok ⟨st, sess, ledger, fx, true⟩

/-- Translation of `DocumentBroker::load`: refuse when marked to destroy,
create the storage binding on first use, run the WOPI token-replay check and
file-info propagation (or the local-storage permission frames), then the
shared validation/download tail. -/
def load (st : BrokerState) (sid : String) (sess : Session)
    (ledger : List String) (env : LoadEnv) : Except LoadExc LoadOk :=
  match env.filterLoadHook with
  | some r => .ok ⟨st, sess, ledger, Effects.nil, r⟩
  | none =>
    if st.markToDestroy then .ok ⟨st, sess, ledger, Effects.nil, false⟩
    else
      let created := st.storage.isNone
      let st := if created then { st with storage := env.createdStorage } else st
      match st.storage with
      | none => .ok ⟨st, sess, ledger, Effects.nil, false⟩
      | some stor =>
        if stor.kind = .wopi then
          let nocheck := !(sess.queryParams.any (fun p => p.1 == "docpass" && p.2 == "yes"))
          let used := tokenUsed ledger sess.accessToken
          if used.1 = false ∧ nocheck = true then .error .storageConn
          else
            let ledger := used.2
            let sess := if env.wopiInfo.userCanWrite then sess
                        else { sess with readOnly := true }
            let fx : Effects :=
              { Effects.nil with
                  sessionMsgs := [(sid, "wopi: " ++ wopiInfoJson env.wopiInfo env.sslEnabled)] }
            let sess := if env.wopiInfo.userid = env.wopiInfo.ownerId then
                          { sess with documentOwner := true }
                        else sess
            loadTail st sid sess ledger env fx created stor
        else
          let permission0 := queryParamOr sess.queryParams "permission" "edit"
          let rdids := sess.queryParams.filter (fun p => p.1 == "rdid")
          let permission := if rdids.isEmpty then permission0 else "convview"
          let fx : Effects :=
            { Effects.nil with
                sessionMsgs :=
                  rdids.map (fun p => (sid, p.2))
                  ++ [(sid, "perm: " ++ env.permLookup permission)] }
          loadTail st sid sess ledger env fx created stor

/-- Result of `DocumentBroker::addSession`: either the session was added (with
the new session count), or an exception propagated to the caller. -/
inductive AddResult
  | ok (st : BrokerState) (sess : Session) (ledger : List String) (fx : Effects) (count : Nat)
  | err (st : BrokerState) (ledger : List String) (fx : Effects)

def AddResult.isOk : AddResult → Bool
  | .ok _ _ _ _ _ => true
  | .err _ _ _ => false

def AddResult.state : AddResult → BrokerState
  | .ok st _ _ _ _ => st
  | .err st _ _ => st

/-- Translation of `DocumentBroker::addSessionInternal`: load the document
(propagating a storage-space failure to all current users as an
`error: cmd=internal kind=diskfull` alert), clear the teardown flags, announce
the session to the kit, and insert it into the session map. -/
def addSessionInternal (st : BrokerState) (sid : String) (sess : Session)
    (ledger : List String) (env : LoadEnv) : AddResult :=
  match load st sid sess ledger env with
  | .error .spaceLow =>
      .err st ledger
        { Effects.nil with
            sessionMsgs := st.sessions.map
              (fun p => (p.1, "error: cmd=internal kind=diskfull")) }
  | .error .storageConn => .err st ledger Effects.nil
  | .ok r =>
      if r.ok = false then .err r.st r.ledger r.fx
      else
        let st := { r.st with lastEditableSession := false,
                              markToDestroy := false,
                              stop := false }
        let fx := r.fx.app
          { Effects.nil with
              childMsgs := ["session " ++ sid ++ " " ++ st.docKey ++ " " ++ st.docId] }
        let sess := { r.sess with attached := true }
        let sessions := emplaceSession st.sessions sid sess
        .ok { st with sessions := sessions } sess r.ledger fx sessions.length

/-- Translation of `DocumentBroker::addSession`: delegate to
`addSessionInternal`; on failure, mark the broker to destroy when it has no
sessions left, and re-raise. -/
def addSession (st : BrokerState) (sid : String) (sess : Session)
    (ledger : List String) (env : LoadEnv) : AddResult :=
  match addSessionInternal st sid sess ledger env with
  | .ok st sess ledger fx count => .ok st sess ledger fx count
  | .err st ledger fx =>
      if st.sessions.isEmpty then
        .err { st with markToDestroy := true } ledger fx
      else .err st ledger fx

/-!
A model of the parts of `Poco::URI` that `DocumentBroker::sanitizeURI` and
`DocumentBroker::getDocKey` use: percent decoding and encoding, URI parsing
(scheme, authority, path, query, fragment), dot-segment normalization, and
query-parameter get/set. Strings are byte strings, modelled as lists of
characters with code points below 256.
-/

/-- Characters `Poco::URI::encode` always escapes (`Poco::URI::ILLEGAL`). -/
def pocoIllegal : List Char :=
  ['%', '<', '>', '\x7b', '\x7d', '|', '\x5c', '\x22', '^', '\x60', '!', '*',
   '\x27', '(', ')', '$', ',', '[', ']']

/-- Unreserved characters `Poco::URI::encode` always passes through. -/
def isUnreserved (c : Char) : Bool :=
  ('a' ≤ c && c ≤ 'z') || ('A' ≤ c && c ≤ 'Z') || ('0' ≤ c && c ≤ '9') ||
    c = '-' || c = '_' || c = '.' || c = '~'

/-- Upper-case hex digit, as `NumberFormatter::formatHex` produces. -/
def hexDigitChar (n : Nat) : Char :=
  if n < 10 then Char.ofNat ('0'.toNat + n) else Char.ofNat ('A'.toNat + n - 10)

/-- Percent-encoding of one character per `Poco::URI::encode`: unreserved
characters pass, controls, non-ASCII bytes, illegal characters and the given
reserved characters are escaped, everything else passes. -/
def encodeChar (reserved : List Char) (c : Char) : List Char :=
  if isUnreserved c then [c]
  else if c.toNat ≤ 0x20 || c.toNat ≥ 0x7f || c ∈ pocoIllegal || c ∈ reserved then
    ['%', hexDigitChar (c.toNat / 16), hexDigitChar (c.toNat % 16)]
  else [c]

/-- Translation of `Poco::URI::encode`. -/
def encodeL (reserved : List Char) (s : List Char) : List Char :=
  s.flatMap (encodeChar reserved)

/-- Value of one hex digit, accepting both cases (`Poco::URI::decode`). -/
def hexVal (c : Char) : Option Nat :=
  if '0'.toNat ≤ c.toNat && c.toNat ≤ '9'.toNat then some (c.toNat - '0'.toNat)
  else if 'A'.toNat ≤ c.toNat && c.toNat ≤ 'F'.toNat then some (c.toNat - 'A'.toNat + 10)
  else if 'a'.toNat ≤ c.toNat && c.toNat ≤ 'f'.toNat then some (c.toNat - 'a'.toNat + 10)
  else none

/-- Translation of `Poco::URI::decode`: replace each `%XX` escape by its
byte; a truncated or malformed escape raises a syntax exception (`none`). -/
def decodeL : List Char → Option (List Char)
  | [] => some []
  | c :: rest =>
      if c = '%' then
        match rest with
        | h1 :: h2 :: rest2 =>
            match hexVal h1, hexVal h2 with
            | some v1, some v2 => (decodeL rest2).map (Char.ofNat (16 * v1 + v2) :: ·)
            | _, _ => none
        | _ => none
      else (decodeL rest).map (c :: ·)

/-- The model of a parsed `Poco::URI`: lowercased scheme, raw authority, the
decoded path, the raw query, and the decoded fragment. -/
structure PocoURI where
  scheme : List Char
  authority : List Char
  path : List Char
  rawQuery : List Char
  fragment : List Char
  deriving Repr, DecidableEq

def PocoURI.isRelative (u : PocoURI) : Bool := u.scheme.isEmpty

/-- Translation of `Poco::URI::parsePathEtc`: the path runs to the first `?`
or `#` and is stored decoded, the query runs to the first `#` and is stored
raw, the fragment is the decoded remainder. -/
def parsePathEtc (scheme authority : List Char) (s : List Char) :
    Option PocoURI :=
  let rawPath := s.takeWhile (fun c => c ≠ '?' ∧ c ≠ '#')
  let rest := s.dropWhile (fun c => c ≠ '?' ∧ c ≠ '#')
  let rawQuery := match rest with
                  | '?' :: r => r.takeWhile (fun c => c ≠ '#')
                  | _ => []
  let rawFragment := match rest with
                     | '?' :: r => (match r.dropWhile (fun c => c ≠ '#') with
                                    | '#' :: f => f
                                    | _ => [])
                     | '#' :: f => f
                     | _ => []
  match decodeL rawPath, decodeL rawFragment with
  | some path, some fragment =>
      some ⟨scheme, authority, path, rawQuery, fragment⟩
  | _, _ => none

/-- Translation of `Poco::URI::parse` (with `parseAuthority` storing the raw
authority text): recognise an optional scheme, then `//authority`, then path,
query and fragment. -/
def parseL (s : List Char) : Option PocoURI :=
  match s with
  | [] => some ⟨[], [], [], [], []⟩
  | c :: _ =>
      if c = '/' ∨ c = '.' ∨ c = '?' ∨ c = '#' then parsePathEtc [] [] s
      else
        let schemePart := s.takeWhile (fun c => c ≠ ':' ∧ c ≠ '?' ∧ c ≠ '#' ∧ c ≠ '/')
        let rest := s.dropWhile (fun c => c ≠ ':' ∧ c ≠ '?' ∧ c ≠ '#' ∧ c ≠ '/')
        match rest with
        | ':' :: rest2 =>
            let scheme := schemePart.map Char.toLower
            (match rest2 with
             | [] => none
             | '/' :: rest3 =>
                 (match rest3 with
                  | '/' :: rest4 =>
                      let auth := rest4.takeWhile (fun c => c ≠ '/' ∧ c ≠ '?' ∧ c ≠ '#')
                      let rest5 := rest4.dropWhile (fun c => c ≠ '/' ∧ c ≠ '?' ∧ c ≠ '#')
                      parsePathEtc scheme auth rest5
                  | _ => parsePathEtc scheme [] ('/' :: rest3))
             | _ => parsePathEtc scheme [] rest2)
        | _ => parsePathEtc [] [] s

/-- Translation of `Poco::URI::getPathSegments`: split on `/`, dropping empty
segments. -/
def getPathSegments : List Char → List (List Char) → List Char → List (List Char)
  | seg, acc, [] => (if seg.isEmpty then acc else acc ++ [seg.reverse])
  | seg, acc, c :: rest =>
      if c = '/' then
        getPathSegments [] (if seg.isEmpty then acc else acc ++ [seg.reverse]) rest
      else getPathSegments (c :: seg) acc rest

/-- Translation of `Poco::URI::buildPath`. -/
def buildPath (schemeEmpty leadingSlash trailingSlash : Bool)
    (segments : List (List Char)) : List Char :=
  let body :=
    match segments with
    | [] => []
    | s0 :: rest =>
        (if leadingSlash then ['/']
         else if s0.contains ':' && schemeEmpty then ['.', '/'] else [])
          ++ s0 ++ rest.flatMap (fun s => '/' :: s)
  body ++ (if trailingSlash && !segments.isEmpty then ['/'] else [])

/-- The segment-normalization loop of `Poco::URI::removeDotSegments`. -/
def normSegments (removeLeading : Bool) :
    List (List Char) → List (List Char) → List (List Char)
  | acc, [] => acc
  | acc, s :: rest =>
      if s = ['.', '.'] then
        (if acc.isEmpty then
           (if removeLeading then normSegments removeLeading acc rest
            else normSegments removeLeading (acc ++ [s]) rest)
         else if acc.getLast? = some ['.', '.'] then
           normSegments removeLeading (acc ++ [s]) rest
         else normSegments removeLeading acc.dropLast rest)
      else if s = ['.'] then normSegments removeLeading acc rest
      else normSegments removeLeading (acc ++ [s]) rest

/-- Translation of `Poco::URI::removeDotSegments`. -/
def removeDotSegments (u : PocoURI) (removeLeading : Bool) : PocoURI :=
  if u.path.isEmpty then u
  else
    let leading := u.path.head? = some '/'
    let trailing := u.path.getLast? = some '/'
    let segs := getPathSegments [] [] u.path
    let norm := normSegments removeLeading [] segs
    { u with path := buildPath u.scheme.isEmpty (decide leading) (decide trailing) norm }

/-- Translation of `Poco::URI::normalize`. -/
def normalizeU (u : PocoURI) : PocoURI :=
  removeDotSegments u (!u.isRelative)

/-- Space for `+` substitution of `Poco::URI::getQueryParameters`. -/
def plusToSpace (s : List Char) : List Char :=
  s.map (fun c => if c = '+' then ' ' else c)

/-- Translation of `Poco::URI::getQueryParameters`: names run to `=` or `&`,
values to `&`, `+` means space, and both halves are percent-decoded (a bad
escape raises a syntax exception). The first argument is recursion fuel (one
unit per parameter suffices, each loop round consumes at least one char). -/
def parseQueryAux : Nat → List Char → Option (List (List Char × List Char))
  | _, [] => some []
  | 0, _ => none
  | Nat.succ fuel, l =>
      let nm := l.takeWhile (fun c => c ≠ '=' ∧ c ≠ '&')
      let rest := l.dropWhile (fun c => c ≠ '=' ∧ c ≠ '&')
      let vl := match rest with
                | '=' :: r => r.takeWhile (fun c => c ≠ '&')
                | _ => []
      let rest2 := match rest with
                   | '=' :: r => r.dropWhile (fun c => c ≠ '&')
                   | _ => rest
      let rest3 := match rest2 with
                   | '&' :: r => r
                   | _ => rest2
      match decodeL (plusToSpace nm), decodeL (plusToSpace vl) with
      | some n, some v =>
          (parseQueryAux fuel rest3).map ((n, v) :: ·)
      | _, _ => none

def getQueryParameters (u : PocoURI) :
    Option (List (List Char × List Char)) :=
  parseQueryAux (u.rawQuery.length + 1) u.rawQuery

/-- Translation of `Poco::URI::addQueryParameter` /`setQueryParameters`:
re-encode each name and value with `=&+;` reserved and join with `&`. -/
def setQueryParameters (u : PocoURI)
    (params : List (List Char × List Char)) : PocoURI :=
  let reserved : List Char := ['=', '&', '+', ';']
  { u with rawQuery :=
      match params.map (fun p => encodeL reserved p.1 ++ '=' :: encodeL reserved p.2) with
      | [] => []
      | q0 :: rest => q0 ++ rest.flatMap (fun q => '&' :: q) }

/-- Translation of `DocumentBroker::sanitizeURI`: decode the URI string,
parse it, normalize relative and `file` URIs, refuse an empty path, and
re-set the query parameters with a decoded `access_token`. -/
def sanitizeURI (uri : List Char) : Option PocoURI := do
  let decodedUri ← decodeL uri
  let u ← parseL decodedUri
  let u := if u.isRelative || u.scheme = ['f', 'i', 'l', 'e'] then normalizeU u else u
  if u.path.isEmpty then none
  else do
    let params ← getQueryParameters u
    let params ← params.mapM (fun p =>
      if p.1 = ['a','c','c','e','s','s','_','t','o','k','e','n'] then
        (decodeL p.2).map (fun v => (p.1, v))
      else some p)
    some (setQueryParameters u params)

/-- Translation of `DocumentBroker::getDocKey`: the percent-encoding (with no
extra reserved characters) of the sanitized URI's path. The conditional on
`docKey == "/"` in the source inspects the query parameters but modifies
nothing, so it has no effect on the result. -/
def getDocKey (u : PocoURI) : List Char :=
  encodeL [] u.path

/-- Document key of a URI string: `getDocKey` after `sanitizeURI`, `none`
when `sanitizeURI` throws. -/
def docKeyOf (uri : List Char) : Option (List Char) :=
  (sanitizeURI uri).map getDocKey

/-- String-level wrapper of `docKeyOf`. -/
def docKeyOfString (uri : String) : Option String :=
  (docKeyOf uri.data).map (fun l => String.mk l)

/-!  Facts about the percent coding of `Poco::URI`, for claim C8. -/

theorem hexVal_hexDigitChar : ∀ n, n < 16 → hexVal (hexDigitChar n) = some n := by
  decide

theorem hexVal_lt (c : Char) (v : Nat) (h : hexVal c = some v) : v < 16 := by
  unfold hexVal at h
  have e0 : '0'.toNat = 48 := rfl
  have e9 : '9'.toNat = 57 := rfl
  have eA : 'A'.toNat = 65 := rfl
  have eF : 'F'.toNat = 70 := rfl
  have ea : 'a'.toNat = 97 := rfl
  have ef : 'f'.toNat = 102 := rfl
  split at h
  · rename_i hc
    cases h
    simp only [Bool.and_eq_true, decide_eq_true_eq, e0, e9] at hc
    omega
  · split at h
    · rename_i hc
      cases h
      simp only [Bool.and_eq_true, decide_eq_true_eq, eA, eF] at hc
      omega
    · split at h
      · rename_i hc
        cases h
        simp only [Bool.and_eq_true, decide_eq_true_eq, ea, ef] at hc
        omega
      · cases h

theorem char_toNat_ofNat (n : Nat) (h : Nat.isValidChar n) :
    (Char.ofNat n).toNat = n := by
  unfold Char.ofNat
  rw [dif_pos h]
  unfold Char.ofNatAux Char.toNat
  rfl

theorem encodeChar_cases (r : List Char) (c : Char) :
    (encodeChar r c = [c] ∧ c ≠ '%') ∨
    encodeChar r c = ['%', hexDigitChar (c.toNat / 16), hexDigitChar (c.toNat % 16)] := by
  unfold encodeChar
  split
  · rename_i hu
    left
    refine ⟨rfl, ?_⟩
    intro he
    rw [he] at hu
    exact absurd hu (by decide)
  · split
    · right; rfl
    · rename_i hu hcond
      left
      refine ⟨rfl, ?_⟩
      intro he
      apply hcond
      rw [he]
      simp [pocoIllegal]

theorem decodeL_cons_ne (c : Char) (rest : List Char) (h : c ≠ '%') :
    decodeL (c :: rest) = (decodeL rest).map (c :: ·) := by
  conv_lhs => unfold decodeL
  rw [if_neg h]

theorem decodeL_escape (h1 h2 : Char) (rest : List Char) (v1 v2 : Nat)
    (e1 : hexVal h1 = some v1) (e2 : hexVal h2 = some v2) :
    decodeL ('%' :: h1 :: h2 :: rest)
      = (decodeL rest).map (Char.ofNat (16 * v1 + v2) :: ·) := by
  conv_lhs => unfold decodeL
  rw [if_pos rfl]
  simp only [e1, e2]

theorem decodeL_of_no_escape (a : List Char) (h : ∀ c ∈ a, c ≠ '%') :
    decodeL a = some a := by
  induction a with
  | nil => rfl
  | cons c t ih =>
      rw [decodeL_cons_ne c t (h c (List.mem_cons_self c t)),
          ih (fun d hd => h d (List.mem_cons_of_mem c hd))]
      rfl

theorem decodeL_encodeL (r : List Char) (d : List Char)
    (hb : ∀ c ∈ d, c.toNat < 256) : decodeL (encodeL r d) = some d := by
  induction d with
  | nil => rfl
  | cons c d ih =>
      have hc : c.toNat < 256 := hb c (List.mem_cons_self c d)
      have ih' := ih (fun x hx => hb x (List.mem_cons_of_mem c hx))
      show decodeL (encodeChar r c ++ encodeL r d) = some (c :: d)
      rcases encodeChar_cases r c with ⟨he, hne⟩ | he
      · rw [he, List.cons_append, List.nil_append, decodeL_cons_ne c _ hne, ih']
        rfl
      · rw [he]
        have hd16 : c.toNat / 16 < 16 := by omega
        have hm16 : c.toNat % 16 < 16 := Nat.mod_lt _ (by norm_num)
        rw [List.cons_append, List.cons_append, List.cons_append, List.nil_append,
            decodeL_escape _ _ _ _ _ (hexVal_hexDigitChar _ hd16)
              (hexVal_hexDigitChar _ hm16), ih']
        simp only [Option.map_some']
        rw [Nat.div_add_mod, Char.ofNat_toNat]

theorem decodeL_append (n : Nat) : ∀ (a : List Char), a.length ≤ n →
    ∀ (a₀ b : List Char), decodeL a = some a₀ →
      decodeL (a ++ b) = (decodeL b).map (a₀ ++ ·) := by
  induction n with
  | zero =>
      intro a ha a₀ b hdec
      have : a = [] := List.length_eq_zero.mp (Nat.le_zero.mp ha)
      subst this
      cases hdec
      simp only [List.nil_append]
      cases decodeL b <;> rfl
  | succ n ih =>
      intro a ha a₀ b hdec
      match a with
      | [] =>
          cases hdec
          simp only [List.nil_append]
          cases decodeL b <;> rfl
      | c :: rest =>
          by_cases hc : c = '%'
          · subst hc
            match rest with
            | [] => cases hdec
            | [h1] => cases hdec
            | h1 :: h2 :: rest2 =>
                cases e1 : hexVal h1 with
                | none => unfold decodeL at hdec; rw [if_pos rfl] at hdec;
                          simp only [e1] at hdec; cases hdec
                | some v1 =>
                    cases e2 : hexVal h2 with
                    | none => unfold decodeL at hdec; rw [if_pos rfl] at hdec;
                              simp only [e1, e2] at hdec; cases hdec
                    | some v2 =>
                        rw [decodeL_escape _ _ _ _ _ e1 e2] at hdec
                        cases hrest : decodeL rest2 with
                        | none => rw [hrest] at hdec; cases hdec
                        | some t =>
                            rw [hrest] at hdec
                            simp only [Option.map_some'] at hdec
                            have ha2 : rest2.length ≤ n := by
                              simp only [List.length_cons] at ha
                              omega
                            have := ih rest2 ha2 t b hrest
                            have ha0 := Option.some.inj hdec
                            subst ha0
                            show decodeL ('%' :: h1 :: h2 :: (rest2 ++ b)) = _
                            rw [decodeL_escape _ _ _ _ _ e1 e2, this]
                            cases decodeL b <;> rfl
          · rw [decodeL_cons_ne _ _ hc] at hdec
            cases hrest : decodeL rest with
            | none => rw [hrest] at hdec; cases hdec
            | some t =>
                rw [hrest] at hdec
                simp only [Option.map_some'] at hdec
                have ha2 : rest.length ≤ n := by
                  simp only [List.length_cons] at ha
                  omega
                have ha0 := Option.some.inj hdec
                subst ha0
                show decodeL (c :: (rest ++ b)) = _
                rw [decodeL_cons_ne _ _ hc, ih rest ha2 t b hrest]
                cases decodeL b <;> rfl

theorem decodeL_bytes (n : Nat) : ∀ (a : List Char), a.length ≤ n →
    ∀ (a₀ : List Char), decodeL a = some a₀ →
      (∀ c ∈ a, c.toNat < 256) → ∀ c ∈ a₀, c.toNat < 256 := by
  induction n with
  | zero =>
      intro a ha a₀ hdec _
      have : a = [] := List.length_eq_zero.mp (Nat.le_zero.mp ha)
      subst this
      cases hdec
      intro c hc
      cases hc
  | succ n ih =>
      intro a ha a₀ hdec hb
      match a with
      | [] =>
          cases hdec
          intro c hc
          cases hc
      | c :: rest =>
          by_cases hc : c = '%'
          · subst hc
            match rest with
            | [] => cases hdec
            | [h1] => cases hdec
            | h1 :: h2 :: rest2 =>
                cases e1 : hexVal h1 with
                | none => unfold decodeL at hdec; rw [if_pos rfl] at hdec;
                          simp only [e1] at hdec; cases hdec
                | some v1 =>
                    cases e2 : hexVal h2 with
                    | none => unfold decodeL at hdec; rw [if_pos rfl] at hdec;
                              simp only [e1, e2] at hdec; cases hdec
                    | some v2 =>
                        rw [decodeL_escape _ _ _ _ _ e1 e2] at hdec
                        cases hrest : decodeL rest2 with
                        | none => rw [hrest] at hdec; cases hdec
                        | some t =>
                            rw [hrest] at hdec
                            simp only [Option.map_some'] at hdec
                            have ha0 := Option.some.inj hdec
                            subst ha0
                            intro x hx
                            rcases List.mem_cons.mp hx with hx | hx
                            · subst hx
                              have hv1 := hexVal_lt _ _ e1
                              have hv2 := hexVal_lt _ _ e2
                              have hval : (16 * v1 + v2) < 256 := by omega
                              have hvalid : Nat.isValidChar (16 * v1 + v2) :=
                                Or.inl (by omega)
                              have : (Char.ofNat (16 * v1 + v2)).toNat = 16 * v1 + v2 :=
                                char_toNat_ofNat _ hvalid
                              omega
                            · refine ih rest2 ?_ t hrest ?_ x hx
                              · simp only [List.length_cons] at ha; omega
                              · intro y hy
                                exact hb y (by
                                  simp only [List.mem_cons] at *
                                  tauto)
          · rw [decodeL_cons_ne _ _ hc] at hdec
            cases hrest : decodeL rest with
            | none => rw [hrest] at hdec; cases hdec
            | some t =>
                rw [hrest] at hdec
                simp only [Option.map_some'] at hdec
                have ha0 := Option.some.inj hdec
                subst ha0
                intro x hx
                rcases List.mem_cons.mp hx with hx | hx
                · subst hx
                  exact hb x (List.mem_cons_self _ _)
                · refine ih rest ?_ t hrest ?_ x hx
                  · simp only [List.length_cons] at ha; omega
                  · intro y hy
                    exact hb y (List.mem_cons_of_mem _ hy)

/-!  List facts for the URI parse shape. -/

theorem takeWhile_all_append (P : Char → Bool) (a b : List Char)
    (ha : ∀ c ∈ a, P c = true) :
    (a ++ b).takeWhile P = a ++ b.takeWhile P := by
  have h1 : a.takeWhile P = a := List.takeWhile_eq_self_iff.mpr ha
  rw [List.takeWhile_append, h1, if_pos rfl]

theorem dropWhile_all_append (P : Char → Bool) (a b : List Char)
    (ha : ∀ c ∈ a, P c = true) :
    (a ++ b).dropWhile P = b.dropWhile P := by
  have h1 : a.dropWhile P = [] := by
    rw [List.dropWhile_eq_nil_iff]
    exact ha
  rw [List.dropWhile_append, h1]
  simp

theorem takeWhile_append_stop (P : Char → Bool) (a b : List Char)
    (hb : b.takeWhile P = []) :
    (a ++ b).takeWhile P = a.takeWhile P := by
  rw [List.takeWhile_append]
  split
  · rename_i hlen
    have : a.takeWhile P = a := (List.takeWhile_prefix P).eq_of_length hlen
    rw [hb, List.append_nil, this]
  · rfl

/-!  The claim C8 setting: build a URI string from components. -/

/-- A URI string assembled from a scheme, host, optional port, path and
optional query. -/
def mkUri (scheme host port path query : List Char) : List Char :=
  (scheme ++ [':', '/', '/'] ++ host
      ++ (if port.isEmpty then [] else ':' :: port))
    ++ path ++ (if query.isEmpty then [] else '?' :: query)

/-- Lower-case ASCII letters only. -/
def alphaLower (s : List Char) : Prop :=
  ∀ c ∈ s, 97 ≤ c.toNat ∧ c.toNat ≤ 122

/-- Host characters: anything except the authority/path delimiters and the
escape character. -/
def hostOk (h : List Char) : Prop :=
  ∀ c ∈ h, c ≠ '/' ∧ c ≠ '?' ∧ c ≠ '#' ∧ c ≠ '%'

/-- Port characters: decimal digits. -/
def portOk (p : List Char) : Prop :=
  ∀ c ∈ p, 48 ≤ c.toNat ∧ c.toNat ≤ 57

/-- Query strings without percent escapes. -/
def queryOk (q : List Char) : Prop := ∀ c ∈ q, c ≠ '%'

theorem char_ne_of_toNat_ne {c d : Char} (h : c.toNat ≠ d.toNat) : c ≠ d := by
  intro he
  exact h (he ▸ rfl)

/-- Decoding a component-built URI decodes only the path. -/
theorem decodeL_mkUri (s h p π q π₀ : List Char)
    (hs : alphaLower s) (hh : hostOk h) (hp : portOk p) (hq : queryOk q)
    (hπ : decodeL π = some π₀) :
    decodeL (mkUri s h p π q) = some (mkUri s h p π₀ q) := by
  have hpre : ∀ c ∈ (s ++ [':', '/', '/'] ++ h
      ++ (if p.isEmpty then [] else ':' :: p)), c ≠ '%' := by
    intro c hc
    simp only [List.append_assoc, List.mem_append, List.mem_cons] at hc
    rcases hc with hc | hc | hc | hc
    · have := hs c hc
      exact char_ne_of_toNat_ne (by simp only [show ('%').toNat = 37 from rfl]; omega)
    · rcases hc with rfl | rfl | rfl | hfalse
      · decide
      · decide
      · decide
      · cases hfalse
    · exact (hh c hc).2.2.2
    · split at hc
      · cases hc
      · rcases List.mem_cons.mp hc with rfl | hc
        · decide
        · have := hp c hc
          exact char_ne_of_toNat_ne (by simp only [show ('%').toNat = 37 from rfl]; omega)
  have hqq : ∀ c ∈ (if q.isEmpty then ([] : List Char) else '?' :: q), c ≠ '%' := by
    intro c hc
    split at hc
    · cases hc
    · rcases List.mem_cons.mp hc with rfl | hc
      · decide
      · exact hq c hc
  unfold mkUri
  rw [List.append_assoc _ π]
  rw [decodeL_append (s ++ [':', '/', '/'] ++ h
      ++ (if p.isEmpty then [] else ':' :: p)).length _ le_rfl _ _
      (decodeL_of_no_escape _ hpre)]
  rw [decodeL_append π.length π le_rfl π₀ _ hπ]
  rw [decodeL_of_no_escape _ hqq]
  simp [List.append_assoc]

/-- Parsing a URI of the form `scheme://authority...`: the scheme is
recognised and lowercased, and the rest is split at the authority
delimiters. -/
theorem parseL_authority (s A : List Char) (hs : alphaLower s) (hsne : s ≠ []) :
    parseL (s ++ ':' :: '/' :: '/' :: A) =
      parsePathEtc (s.map Char.toLower)
        (A.takeWhile (fun c => c ≠ '/' ∧ c ≠ '?' ∧ c ≠ '#'))
        (A.dropWhile (fun c => c ≠ '/' ∧ c ≠ '?' ∧ c ≠ '#')) := by
  obtain ⟨c0, s', rfl⟩ : ∃ c0 s', s = c0 :: s' := by
    cases s with
    | nil => exact absurd rfl hsne
    | cons a b => exact ⟨a, b, rfl⟩
  have hc0 := hs c0 (List.mem_cons_self _ _)
  show parseL (c0 :: (s' ++ ':' :: '/' :: '/' :: A)) = _
  unfold parseL
  dsimp only
  rw [if_neg (by
    rintro (rfl | rfl | rfl | rfl) <;> revert hc0 <;> decide)]
  have hsP : ∀ c ∈ c0 :: s',
      (fun c => decide (c ≠ ':' ∧ c ≠ '?' ∧ c ≠ '#' ∧ c ≠ '/')) c = true := by
    intro c hc
    have := hs c hc
    simp only [decide_eq_true_eq]
    refine ⟨?_, ?_, ?_, ?_⟩ <;>
      exact char_ne_of_toNat_ne (by
        first
        | simp only [show (':').toNat = 58 from rfl]; omega
        | simp only [show ('?').toNat = 63 from rfl]; omega
        | simp only [show ('#').toNat = 35 from rfl]; omega
        | simp only [show ('/').toNat = 47 from rfl]; omega)
  have htake : ((c0 :: s') ++ (':' :: '/' :: '/' :: A)).takeWhile
      (fun c => decide (c ≠ ':' ∧ c ≠ '?' ∧ c ≠ '#' ∧ c ≠ '/')) = c0 :: s' := by
    rw [takeWhile_all_append _ _ _ hsP]
    simp [List.takeWhile_cons]
  have hdrop : ((c0 :: s') ++ (':' :: '/' :: '/' :: A)).dropWhile
      (fun c => decide (c ≠ ':' ∧ c ≠ '?' ∧ c ≠ '#' ∧ c ≠ '/'))
      = ':' :: '/' :: '/' :: A := by
    rw [dropWhile_all_append _ _ _ hsP]
    simp [List.dropWhile_cons]
  rw [show (c0 :: (s' ++ ':' :: '/' :: '/' :: A))
      = ((c0 :: s') ++ (':' :: '/' :: '/' :: A)) from rfl, htake, hdrop]
  rfl

/-- Parsing the decoded component-built URI: scheme, raw authority and the
path-query tail are recovered. -/
theorem parseL_mkUri (s h p π₀ q : List Char)
    (hs : alphaLower s) (hsne : s ≠ [])
    (hh : hostOk h) (hp : portOk p)
    (hπ0 : π₀.head? = some '/') :
    parseL (mkUri s h p π₀ q) =
      parsePathEtc (s.map Char.toLower)
        (h ++ (if p.isEmpty then [] else ':' :: p))
        (π₀ ++ (if q.isEmpty then [] else '?' :: q)) := by
  obtain ⟨π', rfl⟩ : ∃ π', π₀ = '/' :: π' := by
    cases π₀ with
    | nil => cases hπ0
    | cons a b =>
        refine ⟨b, ?_⟩
        have : a = '/' := Option.some.inj hπ0
        rw [this]
  have hform : mkUri s h p ('/' :: π') q
      = s ++ ':' :: '/' :: '/' ::
          ((h ++ (if p.isEmpty then [] else ':' :: p))
            ++ ('/' :: (π' ++ (if q.isEmpty then [] else '?' :: q)))) := by
    unfold mkUri
    simp [List.append_assoc]
  rw [hform, parseL_authority _ _ hs hsne]
  have hPa : ∀ c ∈ (h ++ (if p.isEmpty then [] else ':' :: p)),
      (fun c => decide (c ≠ '/' ∧ c ≠ '?' ∧ c ≠ '#')) c = true := by
    intro c hc
    simp only [decide_eq_true_eq]
    rcases List.mem_append.mp hc with hc | hc
    · exact ⟨(hh c hc).1, (hh c hc).2.1, (hh c hc).2.2.1⟩
    · split at hc
      · cases hc
      · rcases List.mem_cons.mp hc with rfl | hc
        · refine ⟨?_, ?_, ?_⟩ <;> decide
        · have := hp c hc
          refine ⟨?_, ?_, ?_⟩ <;>
            exact char_ne_of_toNat_ne (by
              first
              | simp only [show ('/').toNat = 47 from rfl]; omega
              | simp only [show ('?').toNat = 63 from rfl]; omega
              | simp only [show ('#').toNat = 35 from rfl]; omega)
  rw [takeWhile_all_append _ _ _ hPa, dropWhile_all_append _ _ _ hPa]
  simp [List.takeWhile_cons, List.dropWhile_cons]

/-- A successful `parsePathEtc` stores the decoded raw path and the given
scheme and authority. -/
theorem parsePathEtc_fields (sch auth X : List Char) (u : PocoURI)
    (hparse : parsePathEtc sch auth X = some u) :
    decodeL (X.takeWhile (fun c => c ≠ '?' ∧ c ≠ '#')) = some u.path ∧
    u.scheme = sch := by
  unfold parsePathEtc at hparse
  dsimp only at hparse
  cases hdp : decodeL (X.takeWhile (fun c => decide (c ≠ '?' ∧ c ≠ '#'))) with
  | none =>
      rw [hdp] at hparse
      split at hparse
      · rename_i p f h1 h2
        cases h1
      · cases hparse
  | some pth =>
      rw [hdp] at hparse
      split at hparse
      · rename_i p f h1 h2
        have hu := Option.some.inj hparse
        have hp2 := Option.some.inj h1
        rw [← hu]
        exact ⟨congrArg some hp2, rfl⟩
      · cases hparse

/-- A failing path decode makes `parsePathEtc` fail. -/
theorem parsePathEtc_none (sch auth X : List Char)
    (hdp : decodeL (X.takeWhile (fun c => c ≠ '?' ∧ c ≠ '#')) = none) :
    parsePathEtc sch auth X = none := by
  unfold parsePathEtc
  dsimp only
  rw [hdp]

/-- The path portion of the raw path-query tail depends only on the path. -/
theorem rawPath_stable (π₀ q : List Char) :
    ((π₀ ++ (if q.isEmpty then [] else '?' :: q)).takeWhile
        (fun c => decide (c ≠ '?' ∧ c ≠ '#')))
      = π₀.takeWhile (fun c => decide (c ≠ '?' ∧ c ≠ '#')) := by
  apply takeWhile_append_stop
  split
  · rfl
  · simp [List.takeWhile_cons]

/-- The normalized path depends only on the path and on whether the scheme
is empty. -/
theorem removeDotSegments_path_congr (u v : PocoURI) (rl : Bool)
    (hp : u.path = v.path) (hsch : u.scheme.isEmpty = v.scheme.isEmpty) :
    (removeDotSegments u rl).path = (removeDotSegments v rl).path := by
  unfold removeDotSegments
  rw [hp, hsch]
  split <;> simp [hp]

/-- The path a `file` URI ends with after normalization. -/
def normFilePath (pth : List Char) : List Char :=
  (removeDotSegments ⟨['f', 'i', 'l', 'e'], [], pth, [], []⟩ true).path

/-- The query-parameter re-coding tail of `sanitizeURI` leaves the path
alone. -/
theorem sanitize_tail_path (u' r : PocoURI)
    (hr : (if u'.path.isEmpty then none
           else do
             let params ← getQueryParameters u'
             let params ← params.mapM (fun p =>
               if p.1 = ['a','c','c','e','s','s','_','t','o','k','e','n'] then
                 (decodeL p.2).map (fun v => (p.1, v))
               else some p)
             some (setQueryParameters u' params)) = some r) :
    r.path = u'.path := by
  split at hr
  · cases hr
  · cases hq1 : getQueryParameters u' with
    | none => rw [hq1] at hr; cases hr
    | some ps =>
        rw [hq1] at hr
        simp only [Option.pure_def, Option.bind_eq_bind, Option.some_bind] at hr
        cases hq2 : ps.mapM (fun p =>
            if p.1 = ['a','c','c','e','s','s','_','t','o','k','e','n'] then
              (decodeL p.2).map (fun v => (p.1, v))
            else some p) with
        | none => rw [hq2] at hr; cases hr
        | some ps2 =>
            rw [hq2] at hr
            simp only [Option.some_bind] at hr
            have := Option.some.inj hr
            rw [← this]
            rfl

/-!  Claim C8, round-trip half: the document key is stable under
re-encoding. -/

theorem docKeyOf_reencode (u d : List Char) (hdec : decodeL u = some d)
    (hb : ∀ c ∈ u, c.toNat < 256) :
    docKeyOf (encodeL [] d) = docKeyOf u := by
  have hdb : ∀ c ∈ d, c.toNat < 256 :=
    decodeL_bytes u.length u le_rfl d hdec hb
  unfold docKeyOf sanitizeURI
  rw [hdec, decodeL_encodeL [] d hdb]

/-- The document key of a component-built URI: the path component decodes,
and the key re-encodes the decoded path, normalized when the scheme is
`file`.  Host, port and query leave no trace. -/
theorem docKeyOf_mkUri (s h p π q π₀ : List Char)
    (hs : alphaLower s) (hsne : s ≠ []) (hlow : s.map Char.toLower = s)
    (hh : hostOk h) (hp : portOk p) (hq : queryOk q)
    (hπ : decodeL π = some π₀) (hπ0 : π₀.head? = some '/')
    (hsome : (sanitizeURI (mkUri s h p π q)).isSome) :
    ∃ pth, decodeL (π₀.takeWhile (fun c => c ≠ '?' ∧ c ≠ '#')) = some pth ∧
      docKeyOf (mkUri s h p π q)
        = some (encodeL []
            (if s = ['f', 'i', 'l', 'e'] then normFilePath pth else pth)) := by
  have hdec := decodeL_mkUri s h p π q π₀ hs hh hp hq hπ
  have hpars := parseL_mkUri s h p π₀ q hs hsne hh hp hπ0
  rw [hlow] at hpars
  unfold sanitizeURI at hsome
  unfold docKeyOf sanitizeURI
  rw [hdec] at hsome ⊢
  simp only [Option.pure_def, Option.bind_eq_bind, Option.some_bind] at hsome ⊢
  rw [hpars] at hsome ⊢
  cases hdp : decodeL (π₀.takeWhile (fun c => c ≠ '?' ∧ c ≠ '#')) with
  | none =>
      have hnone : parsePathEtc s (h ++ (if p.isEmpty then [] else ':' :: p))
          (π₀ ++ (if q.isEmpty then [] else '?' :: q)) = none :=
        parsePathEtc_none _ _ _ (by rw [rawPath_stable]; exact hdp)
      rw [hnone] at hsome
      simp at hsome
  | some pth =>
      refine ⟨pth, rfl, ?_⟩
      cases hpe : parsePathEtc s (h ++ (if p.isEmpty then [] else ':' :: p))
          (π₀ ++ (if q.isEmpty then [] else '?' :: q)) with
      | none =>
          rw [hpe] at hsome
          simp at hsome
      | some u =>
          rw [hpe] at hsome
          simp only [Option.some_bind] at hsome ⊢
          obtain ⟨hdecfull, husch⟩ := parsePathEtc_fields _ _ _ _ hpe
          rw [rawPath_stable] at hdecfull
          have hupath : u.path = pth := Option.some.inj (hdecfull.symm.trans hdp)
          have hrel : u.isRelative = false := by
            unfold PocoURI.isRelative
            rw [husch]
            cases s with
            | nil => exact absurd rfl hsne
            | cons a b => rfl
          by_cases hfile : s = ['f', 'i', 'l', 'e']
          · rw [if_pos hfile]
            rw [if_pos (show (u.isRelative || u.scheme = ['f', 'i', 'l', 'e'])
                = true by rw [hrel, husch, hfile]; decide)] at hsome ⊢
            obtain ⟨r, hr⟩ := Option.isSome_iff_exists.mp hsome
            rw [hr]
            have hrp : r.path = (normalizeU u).path := sanitize_tail_path _ _ hr
            simp only [Option.map_some']
            unfold getDocKey
            rw [hrp]
            unfold normalizeU
            rw [hrel]
            exact congrArg (fun l => some (encodeL [] l))
              (removeDotSegments_path_congr u
                ⟨['f', 'i', 'l', 'e'], [], pth, [], []⟩ true hupath
                (by rw [husch, hfile]))
          · rw [if_neg hfile]
            rw [if_neg (show ¬ (u.isRelative || u.scheme = ['f', 'i', 'l', 'e'])
                = true by rw [hrel, husch]; simp [hfile])] at hsome ⊢
            obtain ⟨r, hr⟩ := Option.isSome_iff_exists.mp hsome
            rw [hr]
            have hrp : r.path = u.path := sanitize_tail_path _ _ hr
            simp only [Option.map_some']
            unfold getDocKey
            rw [hrp, hupath]

/-!  Helper lemmas about the session map. -/

theorem findSession_eq_none_of_not_mem {l : List (String × Session)} {id : String}
    (h : id ∉ l.map Prod.fst) : findSession l id = none := by
  induction l with
  | nil => rfl
  | cons p t ih =>
      simp only [List.map_cons, List.mem_cons] at h
      push_neg at h
      simp only [findSession, List.find?]
      have : (p.1 == id) = false := by
        simp [beq_eq_false_iff_ne]
        exact fun e => h.1 e.symm
      rw [this]
      exact ih h.2

theorem findSession_isSome_of_mem {l : List (String × Session)} {id : String}
    (h : id ∈ l.map Prod.fst) : (findSession l id).isSome := by
  induction l with
  | nil => simp at h
  | cons p t ih =>
      simp only [List.map_cons, List.mem_cons] at h
      simp only [findSession, List.find?]
      by_cases hp : p.1 = id
      · simp [hp]
      · have : (p.1 == id) = false := by simp [beq_eq_false_iff_ne]; exact hp
        rw [this]
        exact ih (h.resolve_left (fun e => hp e.symm))

theorem findSession_eraseSession_self {l : List (String × Session)} {id : String}
    (h : (l.map Prod.fst).Nodup) :
    findSession (eraseSession l id) id = none := by
  induction l with
  | nil => rfl
  | cons p t ih =>
      simp only [List.map_cons, List.nodup_cons] at h
      by_cases hp : p.1 = id
      · have hb : (p.1 == id) = true := by simp [hp]
        simp only [eraseSession, List.eraseP_cons, hb]
        exact findSession_eq_none_of_not_mem (hp ▸ h.1)
      · have hb : (p.1 == id) = false := by simp [beq_eq_false_iff_ne]; exact hp
        simp only [eraseSession, List.eraseP_cons, hb, cond_false]
        simp only [findSession, List.find?, hb]
        exact ih h.2

theorem findSession_append_single (l : List (String × Session)) (id : String)
    (s : Session) (hnone : findSession l id = none) :
    (findSession (l ++ [(id, s)]) id).isSome := by
  unfold findSession at hnone ⊢
  induction l with
  | nil => simp
  | cons p t ih =>
      simp only [List.find?] at hnone ⊢
      cases hb : p.1 == id with
      | true => rw [hb] at hnone; cases hnone
      | false =>
          rw [hb] at hnone
          simp only [List.cons_append, List.find?, hb]
          exact ih hnone

theorem findSession_emplace_self (l : List (String × Session)) (id : String)
    (s : Session) : (findSession (emplaceSession l id s) id).isSome := by
  unfold emplaceSession
  split
  · assumption
  · rename_i hn
    exact findSession_append_single l id s
      (Option.not_isSome_iff_eq_none.mp (by simp_all))

/-!  Claim C2: the save-in-progress gate of the poll loop. -/

/-- C2: in a poll-loop iteration in which a save is in flight
(`lastSaveTime < lastSaveRequestTime`) and the elapsed time since the save
request is within the command timeout, the iteration performs none of the
other timer actions and leaves the loop state (broker state, close reason,
autosave check time) unchanged, with no outward effects. -/
theorem pollIteration_save_gate (ctx : PollCtx) (ps : PollIter) (now : Int)
    (h1 : ps.st.lastSaveTime < ps.st.lastSaveRequestTime)
    (h2 : now - ps.st.lastSaveRequestTime ≤ ctx.cmdTimeoutMs) :
    pollIteration ctx ps now = (ps, Effects.nil) := by
  unfold pollIteration
  rw [if_pos ⟨h1, h2⟩]

/-- Example values used to witness the theorems on concrete inputs. -/
def exSession : Session :=
  { readOnly := false, closeFrame := false, documentOwner := false,
    viewLoaded := true, attached := true, accessToken := "T1",
    queryParams := [("access_token", "T1")] }

def exState : BrokerState :=
  { docKey := "/wopi/files/42", docId := "001",
    sessions := [("0", exSession)],
    storage := some { kind := .wopi, loaded := true },
    isLoaded := true, isModified := true, tileCacheUnsaved := true,
    markToDestroy := false, lastEditableSession := false, stop := false,
    childAlive := true,
    lastSaveTime := 100, lastSaveRequestTime := 150,
    lastFileModifiedTime := 10, documentLastModifiedTime := 5,
    lastActivityTime := 90,
    uriJailed := "file:///jail/doc.odt", filename := "doc.odt" }

def exPollCtx : PollCtx :=
  { shutdownRequestFlag := false, autoSaveEnabled := true,
    savingtimeSecs := 30, idleDocTimeoutSecs := 3600, cmdTimeoutMs := 30000,
    dontTerminateEdit := true, dontSaveIfUnmodified := true,
    idleSaveMs := 30000, autoSaveMs := 300000 }

/-- Witness for C2 at a concrete in-flight save state. -/
theorem pollIteration_save_gate_witness :
    pollIteration exPollCtx ⟨exState, "stopped", 0⟩ 200 =
      (⟨exState, "stopped", 0⟩, Effects.nil) :=
  pollIteration_save_gate exPollCtx ⟨exState, "stopped", 0⟩ 200
    (by decide) (by decide)

/-!  Claim C3: the two no-upload skip cases of `saveToStorageInternal`. -/

/-- C3: `saveToStorageInternal` stamps the save-completed time, wakes the
poll, uploads nothing and returns true (a) when the kit reported
success=false with result "unmodified", and (b) when the session exists, the
local file's modification time is unchanged and the last-editable-session
flag is clear; moreover outside case (a) a session missing from the session
map makes it return false without any action, so case (b) requires the
session to exist. -/
theorem saveToStorageInternal_skip_cases (st : BrokerState)
    (now newMtime freshMtime : Int) (uploadResult : SaveResult)
    (sessionId : String) (success : Bool) (result : String) :
    (success = false ∧ result = "unmodified" →
      saveToStorageInternal st now newMtime freshMtime uploadResult sessionId success result
        = ({ st with lastSaveTime := now }, { Effects.nil with wakeups := 1 }, true)) ∧
    (¬(success = false ∧ result = "unmodified") →
      (findSession st.sessions sessionId).isSome →
      st.lastEditableSession = false → newMtime = st.lastFileModifiedTime →
      saveToStorageInternal st now newMtime freshMtime uploadResult sessionId success result
        = ({ st with lastSaveTime := now }, { Effects.nil with wakeups := 1 }, true)) ∧
    (¬(success = false ∧ result = "unmodified") →
      findSession st.sessions sessionId = none →
      saveToStorageInternal st now newMtime freshMtime uploadResult sessionId success result
        = (st, Effects.nil, false)) := by
  refine ⟨fun h => ?_, fun h hfind hLE hmt => ?_, fun h hfind => ?_⟩
  · unfold saveToStorageInternal
    rw [if_pos h]
  · obtain ⟨p, hp⟩ := Option.isSome_iff_exists.mp hfind
    unfold saveToStorageInternal
    rw [if_neg h, hp, if_pos ⟨hLE, hmt⟩]
  · unfold saveToStorageInternal
    rw [if_neg h, hfind]

/-- Witness for C3, skip case (a) on a concrete state. -/
theorem saveToStorageInternal_skip_cases_witness :
    saveToStorageInternal exState 200 10 7 .ok "0" false "unmodified"
      = ({ exState with lastSaveTime := 200 }, { Effects.nil with wakeups := 1 }, true) :=
  (saveToStorageInternal_skip_cases exState 200 10 7 .ok "0" false "unmodified").1
    ⟨rfl, rfl⟩

/-!  Claim C4: the DISKFULL outcome of the storage upload. -/

/-- C4: when the upload path of `saveToStorageInternal` is reached and the
storage reports DISKFULL, every session in the map is made read-only, each
one is sent `error: cmd=storage kind=savediskfull`, and the stop flag is not
changed by this outcome. -/
theorem saveToStorageInternal_diskfull (st : BrokerState)
    (now newMtime freshMtime : Int) (sessionId : String) (success : Bool)
    (result : String)
    (hA : ¬(success = false ∧ result = "unmodified"))
    (hfind : (findSession st.sessions sessionId).isSome)
    (hskip : ¬(st.lastEditableSession = false ∧ newMtime = st.lastFileModifiedTime)) :
    (∀ p ∈ (saveToStorageInternal st now newMtime freshMtime .diskfull sessionId
              success result).1.sessions, p.2.readOnly = true) ∧
    (saveToStorageInternal st now newMtime freshMtime .diskfull sessionId
        success result).2.1.sessionMsgs
      = st.sessions.map (fun p => (p.1, "error: cmd=storage kind=savediskfull")) ∧
    (saveToStorageInternal st now newMtime freshMtime .diskfull sessionId
        success result).1.stop = st.stop := by
  obtain ⟨p, hp⟩ := Option.isSome_iff_exists.mp hfind
  unfold saveToStorageInternal
  rw [if_neg hA, hp, if_neg hskip]
  refine ⟨?_, rfl, rfl⟩
  intro q hq
  simp only [List.mem_map] at hq
  obtain ⟨r, _, hr⟩ := hq
  rw [← hr]

/-- Witness for C4 on a concrete two-session state. -/
theorem saveToStorageInternal_diskfull_witness :
    (∀ p ∈ (saveToStorageInternal exState 200 77 7 .diskfull "0"
              true "success").1.sessions, p.2.readOnly = true) ∧
    (saveToStorageInternal exState 200 77 7 .diskfull "0"
        true "success").2.1.sessionMsgs
      = exState.sessions.map (fun p => (p.1, "error: cmd=storage kind=savediskfull")) ∧
    (saveToStorageInternal exState 200 77 7 .diskfull "0"
        true "success").1.stop = exState.stop :=
  saveToStorageInternal_diskfull exState 200 77 7 "0" true "success"
    (by decide) (by decide) (by decide)

/-!  Claims C10 and C1 need facts about what `saveToStorageInternal`,
`autoSave` and `destroyIfLastEditor` leave unchanged. -/

theorem saveToStorageInternal_markToDestroy (st : BrokerState)
    (now newMtime freshMtime : Int) (uploadResult : SaveResult)
    (sessionId : String) (success : Bool) (result : String) :
    (saveToStorageInternal st now newMtime freshMtime uploadResult sessionId
        success result).1.markToDestroy = st.markToDestroy := by
  unfold saveToStorageInternal
  split
  · rfl
  · cases findSession st.sessions sessionId with
    | none => rfl
    | some p =>
        simp only
        split
        · rfl
        · cases uploadResult <;> rfl

theorem saveToStorageInternal_keys (st : BrokerState)
    (now newMtime freshMtime : Int) (uploadResult : SaveResult)
    (sessionId : String) (success : Bool) (result : String) :
    ((saveToStorageInternal st now newMtime freshMtime uploadResult sessionId
        success result).1.sessions).map Prod.fst = st.sessions.map Prod.fst := by
  unfold saveToStorageInternal
  split
  · rfl
  · cases findSession st.sessions sessionId with
    | none => rfl
    | some p =>
        simp only
        split
        · rfl
        · cases uploadResult <;> simp

theorem removeSessionInternal_markToDestroy (st : BrokerState) (id : String) :
    (removeSessionInternal st id).1.markToDestroy = st.markToDestroy := by
  unfold removeSessionInternal
  cases findSession st.sessions id <;> rfl

theorem removeSessionInternal_find_self (st : BrokerState) (id : String)
    (hN : (st.sessions.map Prod.fst).Nodup) :
    findSession (removeSessionInternal st id).1.sessions id = none := by
  unfold removeSessionInternal
  cases hfind : findSession st.sessions id with
  | none => simpa using hfind
  | some p => simpa using findSession_eraseSession_self hN

/-- Shared teardown fact: `saveToStorage` on a broker marked to destroy
removes the originating session and raises the stop flag, whatever the inner
save reported. -/
theorem saveToStorage_mark_teardown (st : BrokerState)
    (now newMtime freshMtime : Int) (uploadResult : SaveResult)
    (sessionId : String) (success : Bool) (result : String)
    (hN : (st.sessions.map Prod.fst).Nodup)
    (hM : st.markToDestroy = true) :
    (saveToStorage st now newMtime freshMtime uploadResult sessionId
        success result).1.stop = true ∧
    findSession (saveToStorage st now newMtime freshMtime uploadResult sessionId
        success result).1.sessions sessionId = none := by
  have hm1 := saveToStorageInternal_markToDestroy st now newMtime freshMtime
    uploadResult sessionId success result
  have hk1 := saveToStorageInternal_keys st now newMtime freshMtime
    uploadResult sessionId success result
  rw [hM] at hm1
  have hN1 : (((saveToStorageInternal st now newMtime freshMtime uploadResult
      sessionId success result).1).sessions.map Prod.fst).Nodup := hk1 ▸ hN
  have hm2 : ((removeSessionInternal (saveToStorageInternal st now newMtime
      freshMtime uploadResult sessionId success result).1 sessionId).1).markToDestroy
      = true :=
    (removeSessionInternal_markToDestroy _ sessionId).trans hm1
  have hf2 : findSession ((removeSessionInternal (saveToStorageInternal st now
      newMtime freshMtime uploadResult sessionId success result).1
      sessionId).1).sessions sessionId = none :=
    removeSessionInternal_find_self _ sessionId hN1
  unfold saveToStorage
  simp only [hm1, Bool.true_or, ite_true, hm2, hf2, and_true]

theorem autoSave_sessions (st : BrokerState) (now : Int) (force dte dsiu : Bool)
    (idleMs autoMs : Int) :
    (autoSave st now force dte dsiu idleMs autoMs).1.sessions = st.sessions := by
  unfold autoSave sendUnoSave forwardToChild
  repeat' split
  all_goals
    first
    | rfl
    | (cases hf : findSession st.sessions (pickSavingSession st.sessions "") <;>
        simp [hf])

theorem destroyIfLastEditor_sessions (st : BrokerState) (id : String) :
    (destroyIfLastEditor st id).sessions = st.sessions := by
  unfold destroyIfLastEditor
  cases findSession st.sessions id <;> rfl

/-!  Claim C1: removal of the last editable session is deferred to the
save-completion path when the forced autosave is sent. -/

/-- C1: with `destroyIfLast`, after the flags are recomputed, if the
departing session was the last editable one and the forced autosave reports
the save as sent, `removeSession` leaves the session map untouched (the
removal is deferred); if the session was not the last editable one or the
autosave was not sent, the session is removed immediately; and the deferred
removal is carried out by `saveToStorage`, which on a broker marked to
destroy removes the session and raises the stop flag. -/
theorem removeSession_defers_on_lastEditable (st : BrokerState) (now : Int)
    (id : String) (dte dsiu : Bool) (idleMs autoMs : Int) :
    ((destroyIfLastEditor st id).lastEditableSession = true →
      (autoSave (destroyIfLastEditor st id) now true dte dsiu idleMs autoMs).2.2 = true →
      (removeSession st now id true dte dsiu idleMs autoMs).1.sessions = st.sessions) ∧
    (((destroyIfLastEditor st id).lastEditableSession = false ∨
        (autoSave (destroyIfLastEditor st id) now true dte dsiu idleMs autoMs).2.2 = false) →
      (st.sessions.map Prod.fst).Nodup →
      findSession (removeSession st now id true dte dsiu idleMs autoMs).1.sessions id = none) ∧
    (∀ (stM : BrokerState) (t1 t2 t3 : Int) (ur : SaveResult) (sid : String)
        (suc : Bool) (res : String),
      stM.markToDestroy = true → (stM.sessions.map Prod.fst).Nodup →
      (saveToStorage stM t1 t2 t3 ur sid suc res).1.stop = true ∧
      findSession (saveToStorage stM t1 t2 t3 ur sid suc res).1.sessions sid = none) := by
  refine ⟨fun hLE hsent => ?_, fun hcase hN => ?_, fun stM t1 t2 t3 ur sid suc res hM hN =>
    saveToStorage_mark_teardown stM t1 t2 t3 ur sid suc res hN hM⟩
  · unfold removeSession
    simp only [if_true]
    rw [if_neg (by rw [hLE]; exact fun h => Bool.true_eq_false.mp h)]
    simp only [hsent, if_true]
    rw [autoSave_sessions, destroyIfLastEditor_sessions]
  · unfold removeSession
    simp only [if_true]
    by_cases hLE : (destroyIfLastEditor st id).lastEditableSession = false
    · rw [if_pos hLE]
      have hN2 : ((destroyIfLastEditor st id).sessions.map Prod.fst).Nodup := by
        rw [destroyIfLastEditor_sessions]; exact hN
      exact removeSessionInternal_find_self _ id hN2
    · rw [if_neg hLE]
      have hsent : (autoSave (destroyIfLastEditor st id) now true dte dsiu
          idleMs autoMs).2.2 = false := by
        rcases hcase with h | h
        · exact absurd h hLE
        · exact h
      simp only [hsent, Bool.false_eq_true, if_false]
      have hN2 : (((autoSave (destroyIfLastEditor st id) now true dte dsiu idleMs
          autoMs).1).sessions.map Prod.fst).Nodup := by
        rw [autoSave_sessions, destroyIfLastEditor_sessions]; exact hN
      exact removeSessionInternal_find_self _ id hN2

/-- Witness for C1: a sole editable session with live storage defers its own
removal. -/
theorem removeSession_defers_on_lastEditable_witness :
    (removeSession exState 300 "0" true true true 30000 300000).1.sessions
      = exState.sessions :=
  (removeSession_defers_on_lastEditable exState 300 "0" true true 30000 300000).1
    (by decide) (by decide)

/-!  Claim C10: teardown proceeds regardless of the upload outcome. -/

/-- C10: when `saveToStorage` runs on a broker whose marked-to-destroy flag
is set, it removes the originating session and sets the stop flag for every
upload outcome, including the UNAUTHORIZED, FAILED and DISKFULL failures. -/
theorem saveToStorage_teardown_despite_failure (st : BrokerState)
    (now newMtime freshMtime : Int) (uploadResult : SaveResult)
    (sessionId : String) (success : Bool) (result : String)
    (hN : (st.sessions.map Prod.fst).Nodup)
    (hM : st.markToDestroy = true) :
    (saveToStorage st now newMtime freshMtime uploadResult sessionId
        success result).1.stop = true ∧
    findSession (saveToStorage st now newMtime freshMtime uploadResult sessionId
        success result).1.sessions sessionId = none :=
  saveToStorage_mark_teardown st now newMtime freshMtime uploadResult sessionId
    success result hN hM

/-!  Tokenization facts used to evaluate the `load`-rewrite check of
`forwardToChild` on the save command. -/

/-- Whitespace-free words pass through the splitter into the accumulator. -/
theorem splitTokensAux_append_word (w rest acc : List Char)
    (hw : ∀ c ∈ w, ¬(c = ' ' ∨ c = '\n')) :
    splitTokensAux (w ++ rest) acc = splitTokensAux rest (w.reverse ++ acc) := by
  induction w generalizing acc with
  | nil => simp
  | cons c w ih =>
      have hc : ¬(c = ' ' ∨ c = '\n') := hw c (List.mem_cons_self c w)
      simp only [List.cons_append, splitTokensAux, if_neg hc, List.append_eq]
      rw [ih (c :: acc) (fun d hd => hw d (List.mem_cons_of_mem c hd))]
      simp

theorem splitTokensAux_space (rest acc : List Char) (h : acc.isEmpty = false) :
    splitTokensAux (' ' :: rest) acc = acc.reverse :: splitTokensAux rest [] := by
  simp [splitTokensAux, h]

theorem splitTokensAux_term (acc : List Char) (h : acc.isEmpty = false) :
    splitTokensAux [] acc = [acc.reverse] := by
  simp [splitTokensAux, h]

theorem isEmpty_reverse_false {w : List Char} (h : w.isEmpty = false) :
    (w.reverse).isEmpty = false := by
  cases w with
  | nil => simp at h
  | cons c t => simp

/-- Splitting a lone whitespace-free word. -/
theorem splitTokensAux_last (w : List Char)
    (hw : ∀ c ∈ w, ¬(c = ' ' ∨ c = '\n')) (e : w.isEmpty = false) :
    splitTokensAux w [] = [w] := by
  have h1 := splitTokensAux_append_word w [] [] hw
  simp only [List.append_nil] at h1
  rw [h1, splitTokensAux_term _ (isEmpty_reverse_false e), List.reverse_reverse]

/-- Splitting a message of four whitespace-free words. -/
theorem splitTokensAux_four (w1 w2 w3 w4 : List Char)
    (h1 : ∀ c ∈ w1, ¬(c = ' ' ∨ c = '\n')) (e1 : w1.isEmpty = false)
    (h2 : ∀ c ∈ w2, ¬(c = ' ' ∨ c = '\n')) (e2 : w2.isEmpty = false)
    (h3 : ∀ c ∈ w3, ¬(c = ' ' ∨ c = '\n')) (e3 : w3.isEmpty = false)
    (h4 : ∀ c ∈ w4, ¬(c = ' ' ∨ c = '\n')) (e4 : w4.isEmpty = false) :
    splitTokensAux (w1 ++ ' ' :: (w2 ++ ' ' :: (w3 ++ ' ' :: w4))) []
      = [w1, w2, w3, w4] := by
  rw [splitTokensAux_append_word _ _ _ h1, List.append_nil,
      splitTokensAux_space _ _ (isEmpty_reverse_false e1), List.reverse_reverse,
      splitTokensAux_append_word _ _ _ h2, List.append_nil,
      splitTokensAux_space _ _ (isEmpty_reverse_false e2), List.reverse_reverse,
      splitTokensAux_append_word _ _ _ h3, List.append_nil,
      splitTokensAux_space _ _ (isEmpty_reverse_false e3), List.reverse_reverse,
      splitTokensAux_last _ h4 e4]

theorem string_data_append (s t : String) : (s ++ t).data = s.data ++ t.data :=
  rfl

/-- The whitespace-freeness side conditions of `saveArgsJson`. -/
theorem saveArgsJson_wsFree (a b : Bool) :
    (∀ c ∈ (saveArgsJson a b).data, ¬(c = ' ' ∨ c = '\n'))
      ∧ (saveArgsJson a b).data.isEmpty = false := by
  cases a <;> cases b <;> exact ⟨by decide, by decide⟩

/-- Evaluating `forwardToChild` on the `.uno:Save` command: the session
exists and the command is not a `load`, so the frame passes unrewritten. -/
theorem forwardToChild_unoSave (st : BrokerState) (viewId : String) (a b : Bool)
    (hfind : (findSession st.sessions viewId).isSome)
    (hid : ∀ c ∈ viewId.data, ¬(c = ' ' ∨ c = '\n')) :
    forwardToChild st viewId ("uno .uno:Save " ++ saveArgsJson a b)
      = (st,
         { Effects.nil with
             childMsgs := ["child-" ++ viewId ++ " " ++ ("uno .uno:Save " ++ saveArgsJson a b)] },
         true) := by
  obtain ⟨p, hp⟩ := Option.isSome_iff_exists.mp hfind
  have hargs := saveArgsJson_wsFree a b
  have hmsg : ("child-" ++ viewId ++ " " ++ ("uno .uno:Save " ++ saveArgsJson a b)).data
      = ("child-".data ++ viewId.data)
        ++ ' ' :: ("uno".data ++ ' ' :: (".uno:Save".data ++ ' ' :: (saveArgsJson a b).data)) := by
    simp only [string_data_append, List.append_assoc]
    rfl
  have htok : tokenizeMsg ("child-" ++ viewId ++ " " ++ ("uno .uno:Save " ++ saveArgsJson a b))
      = [String.mk ("child-".data ++ viewId.data), "uno", ".uno:Save",
         String.mk (saveArgsJson a b).data] := by
    unfold tokenizeMsg
    have hcd : ∀ c ∈ "child-".data, ¬(c = ' ' ∨ c = '\n') := by decide
    rw [hmsg, splitTokensAux_four]
    · rfl
    · intro c hc
      rcases List.mem_append.mp hc with h | h
      · exact hcd c h
      · exact hid c h
    · simp
    · decide
    · decide
    · decide
    · decide
    · exact hargs.1
    · exact hargs.2
  unfold forwardToChild
  rw [hp]
  simp only [htok]
  have hcond : ¬(([String.mk ("child-".data ++ viewId.data), "uno", ".uno:Save",
      String.mk (saveArgsJson a b).data].length > 1)
      ∧ [String.mk ("child-".data ++ viewId.data), "uno", ".uno:Save",
         String.mk (saveArgsJson a b).data][1]? = some "load") := by
    intro h
    have := h.2
    simp only [List.getElem?_cons_succ, List.getElem?_cons_zero] at this
    exact absurd (Option.some.inj this) (by decide)
  rw [if_neg hcond]

/-!  Facts about `pickSavingSession`. -/

theorem pickSavingSession_mem_cons (l : List (String × Session)) (acc : String) :
    pickSavingSession l acc ∈ acc :: l.map Prod.fst := by
  induction l generalizing acc with
  | nil => exact List.mem_cons_self _ _
  | cons p t ih =>
      simp only [pickSavingSession, List.map_cons]
      cases ho : p.2.documentOwner with
      | true =>
          simp only [ho, if_true]
          exact List.mem_cons_of_mem _ (List.mem_cons_self _ _)
      | false =>
          simp only [ho, Bool.false_eq_true, if_false]
          by_cases he : acc = ""
          · simp only [if_pos he]
            rcases List.mem_cons.mp (ih p.1) with heq | hmem
            · rw [heq]
              exact List.mem_cons_of_mem _ (List.mem_cons_self _ _)
            · exact List.mem_cons_of_mem _ (List.mem_cons_of_mem _ hmem)
          · simp only [if_neg he]
            rcases List.mem_cons.mp (ih acc) with heq | hmem
            · rw [heq]
              exact List.mem_cons_self _ _
            · exact List.mem_cons_of_mem _ (List.mem_cons_of_mem _ hmem)

theorem pickSavingSession_mem (l : List (String × Session)) (h : l.isEmpty = false) :
    pickSavingSession l "" ∈ l.map Prod.fst := by
  cases l with
  | nil => simp at h
  | cons p t =>
      simp only [pickSavingSession, if_pos rfl]
      cases ho : p.2.documentOwner with
      | true => simp [ho]
      | false =>
          simp only [ho, Bool.false_eq_true, if_false]
          have := pickSavingSession_mem_cons t p.1
          simpa using this

/-!  Claim C5: the autosave guards and the forced-save path. -/

/-- C5: `autoSave` does nothing and returns false whenever the broker has no
sessions, no storage, is not loaded, its child is dead, or force is off and
the document unmodified; and when none of these guards holds and force is
on, it sends the `.uno:Save` command to the kit through the picked session,
stamps the save-request time, and returns true — with no constraint on the
modified flag. -/
theorem autoSave_guards_and_force (st : BrokerState) (now : Int) (force : Bool)
    (dte dsiu : Bool) (idleMs autoMs : Int) :
    (st.sessions.isEmpty = true ∨ st.storage = none ∨ st.isLoaded = false ∨
        st.childAlive = false ∨ (st.isModified = false ∧ force = false) →
      autoSave st now force dte dsiu idleMs autoMs = (st, Effects.nil, false)) ∧
    (st.sessions.isEmpty = false → st.storage ≠ none → st.isLoaded = true →
      st.childAlive = true →
      (∀ p ∈ st.sessions, ∀ c ∈ p.1.data, ¬(c = ' ' ∨ c = '\n')) →
      (autoSave st now true dte dsiu idleMs autoMs).2.2 = true ∧
      (autoSave st now true dte dsiu idleMs autoMs).2.1.childMsgs
        = ["child-" ++ pickSavingSession st.sessions "" ++ " "
            ++ ("uno .uno:Save " ++ saveArgsJson dte dsiu)] ∧
      (autoSave st now true dte dsiu idleMs autoMs).1.lastSaveRequestTime = now) := by
  constructor
  · intro h
    unfold autoSave
    rw [if_pos]
    rcases h with h | h | h | h | h
    · exact Or.inl (by simpa using h)
    · exact Or.inr (Or.inl h)
    · exact Or.inr (Or.inr (Or.inl h))
    · exact Or.inr (Or.inr (Or.inr (Or.inl h)))
    · exact Or.inr (Or.inr (Or.inr (Or.inr h)))
  · intro hse hst hld hch hids
    have hmem := pickSavingSession_mem st.sessions hse
    have hfind : (findSession st.sessions (pickSavingSession st.sessions "")).isSome :=
      findSession_isSome_of_mem hmem
    obtain ⟨q, hq, hq1⟩ := List.mem_map.mp hmem
    have hid : ∀ c ∈ (pickSavingSession st.sessions "").data, ¬(c = ' ' ∨ c = '\n') := by
      intro c hc
      exact hids q hq c (by rw [hq1]; exact hc)
    have hguard : ¬(st.sessions.isEmpty = true ∨ st.storage = none ∨
        st.isLoaded = false ∨ st.childAlive = false ∨
        (st.isModified = false ∧ true = false)) := by
      push_neg
      exact ⟨by simp [hse], hst, by simp [hld], by simp [hch], by simp⟩
    unfold autoSave
    rw [if_neg (by simpa using hguard), if_pos rfl]
    unfold sendUnoSave
    have hfind2 : (findSession { st with lastFileModifiedTime := 0 }.sessions
        (pickSavingSession st.sessions "")).isSome := hfind
    obtain ⟨p, hp⟩ := Option.isSome_iff_exists.mp hfind
    simp only [hp]
    rw [forwardToChild_unoSave _ _ dte dsiu (by simpa using hfind) hid]
    exact ⟨trivial, rfl, trivial⟩

/-- Witness for C5, forced-save branch at a concrete unmodified state. -/
theorem autoSave_guards_and_force_witness :
    ((autoSave { exState with isModified := false } 250 true true true 30000 300000).2.2 = true ∧
     (autoSave { exState with isModified := false } 250 true true true 30000 300000).2.1.childMsgs
       = ["child-" ++ pickSavingSession { exState with isModified := false }.sessions "" ++ " "
           ++ ("uno .uno:Save " ++ saveArgsJson true true)] ∧
     (autoSave { exState with isModified := false } 250 true true true 30000 300000).1.lastSaveRequestTime = 250) :=
  (autoSave_guards_and_force { exState with isModified := false } 250 true true true 30000 300000).2
    (by decide) (by decide) (by decide) (by decide) (by decide)

/-!  Claim C9: the modified flag and the tile cache's unsaved-changes flag
move together. -/

/-- Both flags unchanged between two states. -/
def flagsEq (a b : BrokerState) : Prop :=
  a.isModified = b.isModified ∧ a.tileCacheUnsaved = b.tileCacheUnsaved

/-- Whether the storage binding has already downloaded the document. -/
def storageDownloaded (st : BrokerState) : Bool :=
  match st.storage with
  | some s => s.loaded
  | none => false

theorem flagsEq_forwardToChild (st : BrokerState) (v m : String) :
    flagsEq (forwardToChild st v m).1 st := by
  unfold forwardToChild
  cases findSession st.sessions v <;> exact ⟨rfl, rfl⟩

theorem flagsEq_sendUnoSave (st : BrokerState) (now : Int) (sid : String)
    (a b : Bool) : flagsEq (sendUnoSave st now sid a b).1 st := by
  unfold sendUnoSave forwardToChild
  cases findSession st.sessions sid with
  | none => exact ⟨rfl, rfl⟩
  | some p =>
      simp only
      cases findSession st.sessions sid <;> exact ⟨rfl, rfl⟩

theorem flagsEq_autoSave (st : BrokerState) (now : Int) (force dte dsiu : Bool)
    (idleMs autoMs : Int) :
    flagsEq (autoSave st now force dte dsiu idleMs autoMs).1 st := by
  unfold autoSave
  repeat' split
  all_goals first
    | exact ⟨rfl, rfl⟩
    | exact flagsEq_sendUnoSave st now (pickSavingSession st.sessions "") dte dsiu

theorem flagsEq_removeSessionInternal (st : BrokerState) (id : String) :
    flagsEq (removeSessionInternal st id).1 st := by
  unfold removeSessionInternal
  cases findSession st.sessions id <;> exact ⟨rfl, rfl⟩

theorem flagsEq_destroyIfLastEditor (st : BrokerState) (id : String) :
    flagsEq (destroyIfLastEditor st id) st := by
  unfold destroyIfLastEditor
  cases findSession st.sessions id <;> exact ⟨rfl, rfl⟩

theorem flagsEq_trans {a b c : BrokerState} (h1 : flagsEq a b) (h2 : flagsEq b c) :
    flagsEq a c :=
  ⟨h1.1.trans h2.1, h1.2.trans h2.2⟩

theorem flagsEq_removeSession_core (s : BrokerState) (now : Int) (id : String)
    (dte dsiu : Bool) (idleMs autoMs : Int) :
    flagsEq (if s.lastEditableSession = false then removeSessionInternal s id
      else
        if (autoSave s now true dte dsiu idleMs autoMs).2.2 = true then
          ((autoSave s now true dte dsiu idleMs autoMs).1,
           (autoSave s now true dte dsiu idleMs autoMs).2.1,
           (autoSave s now true dte dsiu idleMs autoMs).1.sessions.length)
        else
          ((removeSessionInternal (autoSave s now true dte dsiu idleMs autoMs).1 id).1,
           ((autoSave s now true dte dsiu idleMs autoMs).2.1).app
             (removeSessionInternal (autoSave s now true dte dsiu idleMs autoMs).1 id).2.1,
           (removeSessionInternal (autoSave s now true dte dsiu idleMs autoMs).1 id).2.2)).1
      s := by
  split
  · exact flagsEq_removeSessionInternal s id
  · split
    · exact flagsEq_autoSave s now true dte dsiu idleMs autoMs
    · exact flagsEq_trans (flagsEq_removeSessionInternal _ id)
        (flagsEq_autoSave s now true dte dsiu idleMs autoMs)

theorem flagsEq_removeSession (st : BrokerState) (now : Int) (id : String)
    (destroyIfLast dte dsiu : Bool) (idleMs autoMs : Int) :
    flagsEq (removeSession st now id destroyIfLast dte dsiu idleMs autoMs).1 st := by
  have hD : flagsEq (if destroyIfLast = true then destroyIfLastEditor st id else st) st := by
    split
    · exact flagsEq_destroyIfLastEditor st id
    · exact ⟨rfl, rfl⟩
  exact flagsEq_trans
    (flagsEq_removeSession_core (if destroyIfLast = true then destroyIfLastEditor st id else st)
      now id dte dsiu idleMs autoMs) hD

/-- The inner save either leaves both flags alone or clears both (after a
successful upload). -/
theorem saveToStorageInternal_flags (st : BrokerState)
    (now newMtime freshMtime : Int) (ur : SaveResult) (sid : String)
    (suc : Bool) (res : String) :
    flagsEq (saveToStorageInternal st now newMtime freshMtime ur sid suc res).1 st ∨
    ((saveToStorageInternal st now newMtime freshMtime ur sid suc res).1.isModified = false ∧
     (saveToStorageInternal st now newMtime freshMtime ur sid suc res).1.tileCacheUnsaved = false) := by
  unfold saveToStorageInternal
  split
  · exact Or.inl ⟨rfl, rfl⟩
  · cases findSession st.sessions sid with
    | none => exact Or.inl ⟨rfl, rfl⟩
    | some p =>
        simp only
        split
        · exact Or.inl ⟨rfl, rfl⟩
        · cases ur
          · exact Or.inr ⟨rfl, rfl⟩
          · exact Or.inl ⟨rfl, rfl⟩
          · exact Or.inl ⟨rfl, rfl⟩
          · exact Or.inl ⟨rfl, rfl⟩

theorem saveToStorage_flags (st : BrokerState)
    (now newMtime freshMtime : Int) (ur : SaveResult) (sid : String)
    (suc : Bool) (res : String) :
    flagsEq (saveToStorage st now newMtime freshMtime ur sid suc res).1 st ∨
    ((saveToStorage st now newMtime freshMtime ur sid suc res).1.isModified = false ∧
     (saveToStorage st now newMtime freshMtime ur sid suc res).1.tileCacheUnsaved = false) := by
  have hi := saveToStorageInternal_flags st now newMtime freshMtime ur sid suc res
  have hs1 : flagsEq (saveToStorage st now newMtime freshMtime ur sid suc res).1
      (saveToStorageInternal st now newMtime freshMtime ur sid suc res).1 := by
    unfold saveToStorage
    dsimp only
    repeat' split
    all_goals first
      | exact ⟨rfl, rfl⟩
      | exact flagsEq_removeSessionInternal _ sid
  rcases hi with hi | hi
  · exact Or.inl (flagsEq_trans hs1 hi)
  · exact Or.inr ⟨hs1.1.trans hi.1, hs1.2.trans hi.2⟩

theorem flagsEq_pollIteration (ctx : PollCtx) (ps : PollIter) (now : Int) :
    flagsEq (pollIteration ctx ps now).1.st ps.st := by
  unfold pollIteration
  dsimp only
  repeat' split
  all_goals first
    | exact ⟨rfl, rfl⟩
    | exact flagsEq_autoSave ps.st now true ctx.dontTerminateEdit
        ctx.dontSaveIfUnmodified ctx.idleSaveMs ctx.autoSaveMs

/-- The shared load tail never touches the modified flag, and when the
storage had already downloaded the file it does not touch the unsaved
changes flag either. -/
theorem loadTail_flags (st : BrokerState) (sid : String) (sess : Session)
    (ledger : List String) (env : LoadEnv) (fx : Effects) (firstInstance : Bool)
    (stor : Storage) (r : LoadOk)
    (h : loadTail st sid sess ledger env fx firstInstance stor = .ok r) :
    r.st.isModified = st.isModified ∧
    (stor.loaded = true → r.st.tileCacheUnsaved = st.tileCacheUnsaved) := by
  unfold loadTail at h
  split at h
  · cases h
    exact ⟨rfl, fun _ => rfl⟩
  · dsimp only at h
    split at h
    · rename_i hnl
      split at h
      · cases h
      · cases h
        constructor
        · split <;> rfl
        · intro hL
          rw [hL] at hnl
          cases hnl
    · cases h
      constructor
      · split <;> rfl
      · intro _
        split <;> rfl

/-- A completed `load` never touches the modified flag, and when the
document was already downloaded it does not touch the tile cache's
unsaved-changes flag either (the cache is only recreated on first
download). -/
theorem load_flags (st : BrokerState) (sid : String) (sess : Session)
    (ledger : List String) (env : LoadEnv) (r : LoadOk)
    (h : load st sid sess ledger env = .ok r) :
    r.st.isModified = st.isModified ∧
    (storageDownloaded st = true → r.st.tileCacheUnsaved = st.tileCacheUnsaved) := by
  unfold load at h
  cases henv : env.filterLoadHook with
  | some r0 =>
      rw [henv] at h
      cases h
      exact ⟨rfl, fun _ => rfl⟩
  | none =>
      rw [henv] at h
      by_cases hm : st.markToDestroy = true
      · rw [if_pos hm] at h
        cases h
        exact ⟨rfl, fun _ => rfl⟩
      · rw [if_neg hm] at h
        dsimp only at h
        cases hst : st.storage with
        | none =>
            simp only [hst, Option.isNone_none, if_true] at h
            cases henvc : env.createdStorage with
            | none =>
                simp only [henvc] at h
                cases h
                exact ⟨rfl, fun _ => rfl⟩
            | some stor =>
                simp only [henvc] at h
                have hdlF : ¬(storageDownloaded st = true) := by
                  simp [storageDownloaded, hst]
                refine ?_
                by_cases hk : stor.kind = StorageKind.wopi
                · rw [if_pos hk] at h
                  split at h
                  · cases h
                  · have hlt := loadTail_flags _ _ _ _ _ _ _ _ _ h
                    exact ⟨hlt.1, fun hdl => absurd hdl hdlF⟩
                · rw [if_neg hk] at h
                  have hlt := loadTail_flags _ _ _ _ _ _ _ _ _ h
                  exact ⟨hlt.1, fun hdl => absurd hdl hdlF⟩
        | some s =>
            simp only [hst, Option.isNone_some, Bool.false_eq_true, if_false] at h
            by_cases hk : s.kind = StorageKind.wopi
            · rw [if_pos hk] at h
              split at h
              · cases h
              · have hlt := loadTail_flags _ _ _ _ _ _ _ _ _ h
                refine ⟨hlt.1, fun hdl => hlt.2 ?_⟩
                simpa [storageDownloaded, hst] using hdl
            · rw [if_neg hk] at h
              have hlt := loadTail_flags _ _ _ _ _ _ _ _ _ h
              refine ⟨hlt.1, fun hdl => hlt.2 ?_⟩
              simpa [storageDownloaded, hst] using hdl

theorem addSessionInternal_state_flags (st : BrokerState) (sid : String)
    (sess : Session) (ledger : List String) (env : LoadEnv) :
    ((addSessionInternal st sid sess ledger env).state.isModified = st.isModified) ∧
    (storageDownloaded st = true →
      (addSessionInternal st sid sess ledger env).state.tileCacheUnsaved
        = st.tileCacheUnsaved) := by
  unfold addSessionInternal
  cases hload : load st sid sess ledger env with
  | error e => cases e <;> exact ⟨rfl, fun _ => rfl⟩
  | ok r =>
      have hf := load_flags st sid sess ledger env r hload
      dsimp only
      split
      · exact ⟨hf.1, hf.2⟩
      · exact ⟨hf.1, hf.2⟩

theorem addSession_state_flags (st : BrokerState) (sid : String) (sess : Session)
    (ledger : List String) (env : LoadEnv) :
    ((addSession st sid sess ledger env).state.isModified = st.isModified) ∧
    (storageDownloaded st = true →
      (addSession st sid sess ledger env).state.tileCacheUnsaved = st.tileCacheUnsaved) := by
  have hi := addSessionInternal_state_flags st sid sess ledger env
  cases hint : addSessionInternal st sid sess ledger env with
  | ok a b c d n =>
      rw [hint] at hi
      unfold addSession
      simp only [hint]
      exact hi
  | err s l f =>
      rw [hint] at hi
      unfold addSession
      simp only [hint]
      split
      · exact hi
      · exact hi

/-- The operations of the broker model, each bundling the environment inputs
its translation reads. -/
inductive BrokerOp
  | opSetModified (v : Bool)
  | opSaveToStorageInternal (now newMtime freshMtime : Int) (ur : SaveResult)
      (sid : String) (success : Bool) (result : String)
  | opSaveToStorage (now newMtime freshMtime : Int) (ur : SaveResult)
      (sid : String) (success : Bool) (result : String)
  | opAutoSave (now : Int) (force dte dsiu : Bool) (idleMs autoMs : Int)
  | opSendUnoSave (now : Int) (sid : String) (dte dsiu : Bool)
  | opForwardToChild (viewId message : String)
  | opRemoveSession (now : Int) (id : String) (destroyIfLast dte dsiu : Bool)
      (idleMs autoMs : Int)
  | opRemoveSessionInternal (id : String)
  | opDestroyIfLastEditor (id : String)
  | opStop
  | opPollIteration (ctx : PollCtx) (closeReason : String) (last30 now : Int)
  | opAddSession (sid : String) (sess : Session) (ledger : List String) (env : LoadEnv)

/-- The broker state after an operation. -/
def applyOp : BrokerOp → BrokerState → BrokerState
  | .opSetModified v, st => setModified st v
  | .opSaveToStorageInternal n m f ur sid suc res, st =>
      (saveToStorageInternal st n m f ur sid suc res).1
  | .opSaveToStorage n m f ur sid suc res, st =>
      (saveToStorage st n m f ur sid suc res).1
  | .opAutoSave n force dte dsiu i a, st => (autoSave st n force dte dsiu i a).1
  | .opSendUnoSave n sid dte dsiu, st => (sendUnoSave st n sid dte dsiu).1
  | .opForwardToChild v m, st => (forwardToChild st v m).1
  | .opRemoveSession n id d dte dsiu i a, st => (removeSession st n id d dte dsiu i a).1
  | .opRemoveSessionInternal id, st => (removeSessionInternal st id).1
  | .opDestroyIfLastEditor id, st => destroyIfLastEditor st id
  | .opStop, st => (stopBroker st).1
  | .opPollIteration ctx cr l30 n, st => (pollIteration ctx ⟨st, cr, l30⟩ n).1.st
  | .opAddSession sid sess ledger env, st => (addSession st sid sess ledger env).state

/-!  Claim C9 proper. -/

/-- C9: every modeled broker operation preserves the invariant that the
modified flag implies the tile cache's unsaved-changes flag (for session
admission, under the reachability fact that a modified document has been
downloaded); `setModified v` sets both flags to `v` together; and a
successful upload in `saveToStorageInternal` clears both flags together, so
no operation clears one of the two while leaving the other set. -/
theorem broker_ops_preserve_modified_invariant (op : BrokerOp) (st : BrokerState)
    (hInv : st.isModified = true → st.tileCacheUnsaved = true)
    (hDl : st.isModified = true → storageDownloaded st = true) :
    ((applyOp op st).isModified = true → (applyOp op st).tileCacheUnsaved = true) ∧
    (∀ v : Bool, (setModified st v).isModified = v ∧
      (setModified st v).tileCacheUnsaved = v) ∧
    (∀ (now newMtime freshMtime : Int) (sid : String) (suc : Bool) (res : String),
      ¬(suc = false ∧ res = "unmodified") →
      (findSession st.sessions sid).isSome →
      ¬(st.lastEditableSession = false ∧ newMtime = st.lastFileModifiedTime) →
      (saveToStorageInternal st now newMtime freshMtime .ok sid suc res).1.isModified = false ∧
      (saveToStorageInternal st now newMtime freshMtime .ok sid suc res).1.tileCacheUnsaved = false) := by
  refine ⟨?_, fun v => ⟨rfl, rfl⟩, fun now nm fm sid suc res hA hfind hskip => ?_⟩
  · cases op with
    | opSetModified v =>
        cases v
        · intro hm; cases hm
        · intro _; rfl
    | opSaveToStorageInternal n m f ur sid suc res =>
        rcases saveToStorageInternal_flags st n m f ur sid suc res with hf | hf
        · intro hm; exact hf.2.trans (hInv (hf.1.symm.trans hm))
        · intro hm; exact (Bool.false_ne_true (hf.1.symm.trans hm)).elim
    | opSaveToStorage n m f ur sid suc res =>
        rcases saveToStorage_flags st n m f ur sid suc res with hf | hf
        · intro hm; exact hf.2.trans (hInv (hf.1.symm.trans hm))
        · intro hm; exact (Bool.false_ne_true (hf.1.symm.trans hm)).elim
    | opAutoSave n force dte dsiu i a =>
        have hf := flagsEq_autoSave st n force dte dsiu i a
        intro hm; exact hf.2.trans (hInv (hf.1.symm.trans hm))
    | opSendUnoSave n sid dte dsiu =>
        have hf := flagsEq_sendUnoSave st n sid dte dsiu
        intro hm; exact hf.2.trans (hInv (hf.1.symm.trans hm))
    | opForwardToChild v m =>
        have hf := flagsEq_forwardToChild st v m
        intro hm; exact hf.2.trans (hInv (hf.1.symm.trans hm))
    | opRemoveSession n id d dte dsiu i a =>
        have hf := flagsEq_removeSession st n id d dte dsiu i a
        intro hm; exact hf.2.trans (hInv (hf.1.symm.trans hm))
    | opRemoveSessionInternal id =>
        have hf := flagsEq_removeSessionInternal st id
        intro hm; exact hf.2.trans (hInv (hf.1.symm.trans hm))
    | opDestroyIfLastEditor id =>
        have hf := flagsEq_destroyIfLastEditor st id
        intro hm; exact hf.2.trans (hInv (hf.1.symm.trans hm))
    | opStop =>
        intro hm; exact hInv hm
    | opPollIteration ctx cr l30 n =>
        have hf := flagsEq_pollIteration ctx ⟨st, cr, l30⟩ n
        intro hm; exact hf.2.trans (hInv (hf.1.symm.trans hm))
    | opAddSession sid sess ledger env =>
        have hf := addSession_state_flags st sid sess ledger env
        intro hm
        have hm' : st.isModified = true := hf.1.symm.trans hm
        exact (hf.2 (hDl hm')).trans (hInv hm')
  · obtain ⟨p, hp⟩ := Option.isSome_iff_exists.mp hfind
    unfold saveToStorageInternal
    rw [if_neg hA, hp, if_neg hskip]
    exact ⟨rfl, rfl⟩

/-- Witness for C9 at a concrete operation and state. -/
theorem broker_ops_preserve_modified_invariant_witness :
    ((applyOp (.opSetModified false) exState).isModified = true →
      (applyOp (.opSetModified false) exState).tileCacheUnsaved = true) ∧
    (∀ v : Bool, (setModified exState v).isModified = v ∧
      (setModified exState v).tileCacheUnsaved = v) ∧
    (∀ (now newMtime freshMtime : Int) (sid : String) (suc : Bool) (res : String),
      ¬(suc = false ∧ res = "unmodified") →
      (findSession exState.sessions sid).isSome →
      ¬(exState.lastEditableSession = false ∧ newMtime = exState.lastFileModifiedTime) →
      (saveToStorageInternal exState now newMtime freshMtime .ok sid suc res).1.isModified = false ∧
      (saveToStorageInternal exState now newMtime freshMtime .ok sid suc res).1.tileCacheUnsaved = false) :=
  broker_ops_preserve_modified_invariant (.opSetModified false) exState
    (by decide) (by decide)

/-!  Facts about `loadTail` and `load` used for claims C6 and C7. -/

theorem loadTail_ok (st : BrokerState) (sid : String) (sess : Session)
    (ledger : List String) (env : LoadEnv) (fx : Effects) (firstInstance : Bool)
    (stor : Storage) (hValid : env.fileInfoValid = true)
    (hDisk : env.diskFull = false) :
    ∃ r, loadTail st sid sess ledger env fx firstInstance stor = .ok r ∧
      r.ok = true ∧ r.ledger = ledger ∧ r.sess = sess := by
  unfold loadTail
  rw [if_neg (by simp [hValid])]
  dsimp only
  split
  · rw [if_neg (by rw [hDisk]; exact Bool.false_ne_true)]
    exact ⟨_, rfl, rfl, rfl, rfl⟩
  · exact ⟨_, rfl, rfl, rfl, rfl⟩

/-- The `load` translation completes with a true result when the teardown
gate is open, a storage instance is available, the WOPI token-replay gate
passes, the file info is valid and the download does not hit disk-full. -/
theorem load_succeeds (st : BrokerState) (sid : String) (sess : Session)
    (ledger : List String) (env : LoadEnv) (stor : Storage)
    (hHook : env.filterLoadHook = none)
    (hMark : st.markToDestroy = false)
    (hStor : (if st.storage.isNone = true then env.createdStorage else st.storage)
      = some stor)
    (hTok : stor.kind = StorageKind.wopi →
      sess.accessToken ∉ ledger ∨
      (sess.queryParams.any (fun p => p.1 == "docpass" && p.2 == "yes")) = true)
    (hValid : env.fileInfoValid = true)
    (hDisk : env.diskFull = false) :
    ∃ r, load st sid sess ledger env = .ok r ∧ r.ok = true := by
  unfold load
  rw [hHook]
  rw [if_neg (by rw [hMark]; exact Bool.false_ne_true)]
  dsimp only
  have hgate : ∀ (sess1 : Session) (ledger1 : List String) (fx1 : Effects)
      (st1 : BrokerState) (fi : Bool),
      ∃ r, loadTail st1 sid sess1 ledger1 env fx1 fi stor = .ok r ∧ r.ok = true :=
    fun sess1 ledger1 fx1 st1 fi => by
      obtain ⟨r, hr, hok, _, _⟩ :=
        loadTail_ok st1 sid sess1 ledger1 env fx1 fi stor hValid hDisk
      exact ⟨r, hr, hok⟩
  cases hst : st.storage with
  | none =>
      rw [hst] at hStor
      simp only [Option.isNone_none, if_true] at hStor
      simp only [hst, Option.isNone_none, if_true, hStor]
      by_cases hk : stor.kind = StorageKind.wopi
      · rw [if_pos hk]
        rcases hTok hk with hfresh | hpass
        · rw [if_neg (by
            unfold tokenUsed
            rw [if_neg hfresh]
            exact fun h => Bool.true_eq_false.mp h.1)]
          exact hgate _ _ _ _ _
        · rw [if_neg (by
            intro h
            have h2 := h.2
            rw [hpass] at h2
            simp at h2)]
          exact hgate _ _ _ _ _
      · rw [if_neg hk]
        exact hgate _ _ _ _ _
  | some s =>
      rw [hst] at hStor
      simp only [Option.isNone_some, Bool.false_eq_true, if_false] at hStor
      have hs : s = stor := Option.some.inj hStor
      subst hs
      simp only [hst, Option.isNone_some, Bool.false_eq_true, if_false]
      by_cases hk : s.kind = StorageKind.wopi
      · rw [if_pos hk]
        rcases hTok hk with hfresh | hpass
        · rw [if_neg (by
            unfold tokenUsed
            rw [if_neg hfresh]
            exact fun h => Bool.true_eq_false.mp h.1)]
          exact hgate _ _ _ _ _
        · rw [if_neg (by
            intro h
            have h2 := h.2
            rw [hpass] at h2
            simp at h2)]
          exact hgate _ _ _ _ _
      · rw [if_neg hk]
        exact hgate _ _ _ _ _

theorem loadTail_ledger (st : BrokerState) (sid : String) (sess : Session)
    (ledger : List String) (env : LoadEnv) (fx : Effects) (fi : Bool)
    (stor : Storage) (hDisk : env.diskFull = false) :
    ∃ r, loadTail st sid sess ledger env fx fi stor = .ok r ∧
      r.ledger = ledger ∧ (env.fileInfoValid = true → r.ok = true) := by
  unfold loadTail
  by_cases hv : env.fileInfoValid = false
  · rw [if_pos hv]
    exact ⟨_, rfl, rfl, fun h => absurd h (by simp [hv])⟩
  · rw [if_neg hv]
    dsimp only
    split
    · rw [if_neg (by simp [hDisk])]
      exact ⟨_, rfl, rfl, fun _ => rfl⟩
    · exact ⟨_, rfl, rfl, fun _ => rfl⟩

/-!  Claim C7: the WOPI access-token replay gate. -/

/-- C7: on a WOPI-backed load with the teardown gate open, (a) an access
token already present in the token ledger together with the absence of a
`docpass=yes` query parameter makes `load` throw the storage-connection
exception, so the document is not loaded for that session; and (b) a token
not yet in the ledger is inserted and the load proceeds without that
exception — returning true when the file info is also valid. -/
theorem load_wopi_token_replay (st : BrokerState) (sid : String) (sess : Session)
    (ledger : List String) (env : LoadEnv) (stor : Storage)
    (hHook : env.filterLoadHook = none)
    (hMark : st.markToDestroy = false)
    (hStor : (if st.storage.isNone = true then env.createdStorage else st.storage)
      = some stor)
    (hWopi : stor.kind = StorageKind.wopi) :
    (sess.accessToken ∈ ledger →
      (sess.queryParams.any (fun p => p.1 == "docpass" && p.2 == "yes")) = false →
      load st sid sess ledger env = .error .storageConn) ∧
    (sess.accessToken ∉ ledger → env.diskFull = false →
      ∃ r, load st sid sess ledger env = .ok r ∧
        r.ledger = ledger ++ [sess.accessToken] ∧
        (env.fileInfoValid = true → r.ok = true)) := by
  constructor
  · intro hMem hDoc
    unfold load
    rw [hHook]
    rw [if_neg (by rw [hMark]; exact Bool.false_ne_true)]
    dsimp only
    have hcond : (tokenUsed ledger sess.accessToken).1 = false ∧
        (!(sess.queryParams.any (fun p => p.1 == "docpass" && p.2 == "yes"))) = true := by
      constructor
      · unfold tokenUsed
        rw [if_pos hMem]
      · rw [hDoc]
        rfl
    cases hst : st.storage with
    | none =>
        rw [hst] at hStor
        simp only [Option.isNone_none, if_true] at hStor
        simp only [hst, Option.isNone_none, if_true, hStor]
        rw [if_pos hWopi, if_pos hcond]
    | some s =>
        rw [hst] at hStor
        simp only [Option.isNone_some, Bool.false_eq_true, if_false] at hStor
        have hs : s = stor := Option.some.inj hStor
        subst hs
        simp only [hst, Option.isNone_some, Bool.false_eq_true, if_false]
        rw [if_pos hWopi, if_pos hcond]
  · intro hFresh hDisk
    unfold load
    rw [hHook]
    rw [if_neg (by rw [hMark]; exact Bool.false_ne_true)]
    dsimp only
    have hused : tokenUsed ledger sess.accessToken
        = (true, ledger ++ [sess.accessToken]) := by
      unfold tokenUsed
      rw [if_neg hFresh]
    have hcond : ¬((tokenUsed ledger sess.accessToken).1 = false ∧
        (!(sess.queryParams.any (fun p => p.1 == "docpass" && p.2 == "yes"))) = true) := by
      rw [hused]
      exact fun h => Bool.true_eq_false.mp h.1
    cases hst : st.storage with
    | none =>
        rw [hst] at hStor
        simp only [Option.isNone_none, if_true] at hStor
        simp only [hst, Option.isNone_none, if_true, hStor]
        rw [if_pos hWopi, if_neg hcond, hused]
        exact loadTail_ledger _ sid _ _ env _ _ stor hDisk
    | some s =>
        rw [hst] at hStor
        simp only [Option.isNone_some, Bool.false_eq_true, if_false] at hStor
        have hs : s = stor := Option.some.inj hStor
        subst hs
        simp only [hst, Option.isNone_some, Bool.false_eq_true, if_false]
        rw [if_pos hWopi, if_neg hcond, hused]
        exact loadTail_ledger _ sid _ _ env _ _ s hDisk

/-- Example WOPI file info and load environment for the witnesses. -/
def exWopiInfo : WopiInfo :=
  { userid := "u1", username := "User One", userCanWrite := true,
    ownerId := "u1", postMessageOrigin := "", filename := "doc.odt",
    hidePrintOption := false, hideSaveOption := false, hideExportOption := false,
    disablePrint := false, disableExport := false, disableCopy := false }

def exLoadEnv : LoadEnv :=
  { filterLoadHook := none,
    createdStorage := some { kind := .wopi, loaded := false },
    wopiInfo := exWopiInfo, localUserid := "lu", localUsername := "Local User",
    fileInfoValid := true, fileInfoModifiedTime := 1000,
    fileInfoFilename := "doc.odt", diskFull := false, localFileMtime := 2000,
    jailedPath := "/jail/user/doc/abc/doc.odt", sslEnabled := false,
    permLookup := fun _ => "", wopiLoadDurationMs := 12 }

def exSession2 : Session :=
  { readOnly := false, closeFrame := false, documentOwner := false,
    viewLoaded := false, attached := false, accessToken := "T2",
    queryParams := [("access_token", "T2")] }

/-- Witness for C7: with a fresh broker, a replayed token fails the load. -/
theorem load_wopi_token_replay_witness :
    load { exState with storage := none } "1" exSession2 ["T2"] exLoadEnv
      = .error .storageConn :=
  (load_wopi_token_replay { exState with storage := none } "1" exSession2 ["T2"]
      exLoadEnv { kind := .wopi, loaded := false }
      (by decide) (by decide) (by decide) (by decide)).1
    (by decide) (by decide)

/-!  Claim C6: session admission. The claim says even a broker with
`marked_to_destroy` set accepts the session; in the code `load` refuses a
marked-to-destroy broker, so `addSession` fails there. -/

/-- Counterexample for C6 as stated: on a broker whose marked-to-destroy
flag is set, `addSession` raises instead of succeeding, and the session is
not inserted into the session map. -/
theorem addSession_marked_to_destroy_fails :
    (addSession { exState with markToDestroy := true } "1" exSession2 []
        exLoadEnv).isOk = false ∧
    findSession (addSession { exState with markToDestroy := true } "1" exSession2 []
        exLoadEnv).state.sessions "1" = none ∧
    { exState with markToDestroy := true }.markToDestroy = true := by
  refine ⟨rfl, rfl, rfl⟩

/-- C6 (amended): for a broker that is not marked to destroy, when the load
succeeds (storage available, WOPI token gate passed, valid file info, no
disk-full), `addSession` succeeds, clears `last_editable_session`,
`marked_to_destroy` and `stop`, and inserts the session into the session
map. -/
theorem addSession_revives_broker (st : BrokerState) (sid : String)
    (sess : Session) (ledger : List String) (env : LoadEnv) (stor : Storage)
    (hHook : env.filterLoadHook = none)
    (hMark : st.markToDestroy = false)
    (hStor : (if st.storage.isNone = true then env.createdStorage else st.storage)
      = some stor)
    (hTok : stor.kind = StorageKind.wopi →
      sess.accessToken ∉ ledger ∨
      (sess.queryParams.any (fun p => p.1 == "docpass" && p.2 == "yes")) = true)
    (hValid : env.fileInfoValid = true)
    (hDisk : env.diskFull = false) :
    (addSession st sid sess ledger env).isOk = true ∧
    (addSession st sid sess ledger env).state.lastEditableSession = false ∧
    (addSession st sid sess ledger env).state.markToDestroy = false ∧
    (addSession st sid sess ledger env).state.stop = false ∧
    (findSession (addSession st sid sess ledger env).state.sessions sid).isSome := by
  obtain ⟨r, hload, hok⟩ :=
    load_succeeds st sid sess ledger env stor hHook hMark hStor hTok hValid hDisk
  unfold addSession addSessionInternal
  simp only [hload]
  rw [if_neg (by simp [hok])]
  exact ⟨rfl, rfl, rfl, rfl, findSession_emplace_self _ _ _⟩

/-- A cooling broker: no storage yet, stop raised, last-editable set. -/
def exColdState : BrokerState := { exState with
  storage := none
  stop := true
  lastEditableSession := true }

/-- Witness for C6 (amended) at a concrete cooling broker. -/
theorem addSession_revives_broker_witness :
    (addSession exColdState "1" exSession2 [] exLoadEnv).isOk = true ∧
    (addSession exColdState "1" exSession2 [] exLoadEnv).state.lastEditableSession = false ∧
    (addSession exColdState "1" exSession2 [] exLoadEnv).state.markToDestroy = false ∧
    (addSession exColdState "1" exSession2 [] exLoadEnv).state.stop = false ∧
    (findSession (addSession exColdState "1" exSession2 [] exLoadEnv).state.sessions "1").isSome :=
  addSession_revives_broker exColdState "1" exSession2 [] exLoadEnv
    { kind := .wopi, loaded := false }
    (by decide) (by decide) (by decide)
    (fun _ => Or.inl (by decide)) (by decide) (by decide)

/-- Witness for C10 at a concrete state with a FAILED upload. -/
theorem saveToStorage_teardown_despite_failure_witness :
    (saveToStorage { exState with markToDestroy := true } 200 77 7 .failed "0"
        false "failure").1.stop = true ∧
    findSession (saveToStorage { exState with markToDestroy := true } 200 77 7
        .failed "0" false "failure").1.sessions "0" = none :=
  saveToStorage_teardown_despite_failure { exState with markToDestroy := true }
    200 77 7 .failed "0" false "failure" (by decide) (by decide)

/-- C8 (amended): the document key is the percent-encoding of the decoded
URI's path, so two URIs sharing a path but differing in host, port, query —
and in scheme, provided the schemes agree on being `file`, since a `file`
scheme additionally triggers dot-segment normalization of the path —
produce equal document keys; and the key is stable under re-encoding:
`docKey(encode(decode(u))) = docKey(u)`.  Scheme independence in full
generality is refuted by the counterexample `file://h/a/../b` vs
`http://h/a/../b`. -/
theorem docKey_depends_only_on_path
    (s₁ h₁ p₁ q₁ s₂ h₂ p₂ q₂ π π₀ u d : List Char)
    (hs₁ : alphaLower s₁) (hsne₁ : s₁ ≠ []) (hlow₁ : s₁.map Char.toLower = s₁)
    (hh₁ : hostOk h₁) (hp₁ : portOk p₁) (hq₁ : queryOk q₁)
    (hs₂ : alphaLower s₂) (hsne₂ : s₂ ≠ []) (hlow₂ : s₂.map Char.toLower = s₂)
    (hh₂ : hostOk h₂) (hp₂ : portOk p₂) (hq₂ : queryOk q₂)
    (hπ : decodeL π = some π₀) (hπ0 : π₀.head? = some '/')
    (hfile : s₁ = ['f', 'i', 'l', 'e'] ↔ s₂ = ['f', 'i', 'l', 'e'])
    (hsome₁ : (sanitizeURI (mkUri s₁ h₁ p₁ π q₁)).isSome)
    (hsome₂ : (sanitizeURI (mkUri s₂ h₂ p₂ π q₂)).isSome)
    (hdec : decodeL u = some d) (hb : ∀ c ∈ u, c.toNat < 256) :
    docKeyOf (mkUri s₁ h₁ p₁ π q₁) = docKeyOf (mkUri s₂ h₂ p₂ π q₂) ∧
    docKeyOf (encodeL [] d) = docKeyOf u := by
  refine ⟨?_, docKeyOf_reencode u d hdec hb⟩
  obtain ⟨pth₁, hdp₁, hk₁⟩ :=
    docKeyOf_mkUri s₁ h₁ p₁ π q₁ π₀ hs₁ hsne₁ hlow₁ hh₁ hp₁ hq₁ hπ hπ0 hsome₁
  obtain ⟨pth₂, hdp₂, hk₂⟩ :=
    docKeyOf_mkUri s₂ h₂ p₂ π q₂ π₀ hs₂ hsne₂ hlow₂ hh₂ hp₂ hq₂ hπ hπ0 hsome₂
  have hpp : pth₁ = pth₂ := Option.some.inj (hdp₁.symm.trans hdp₂)
  rw [hk₁, hk₂, ← hpp]
  by_cases hf : s₁ = ['f', 'i', 'l', 'e']
  · rw [if_pos hf, if_pos (hfile.mp hf)]
  · rw [if_neg hf, if_neg (fun hy => hf (hfile.mpr hy))]

/-- Counterexample to the unamended C8: two URIs differing only in scheme
can yield different document keys, because `sanitizeURI` applies dot-segment
normalization to `file` URIs only. -/
theorem docKey_scheme_counterexample :
    docKeyOfString "file://h/a/../b" = some "/b" ∧
    docKeyOfString "http://h/a/../b" = some "/a/../b" ∧
    docKeyOfString "file://h/a/../b" ≠ docKeyOfString "http://h/a/../b" := by
  refine ⟨?_, ?_, ?_⟩ <;> decide

/-- Witness for C8 (amended) at two concrete URIs sharing the path `/a`. -/
theorem docKey_depends_only_on_path_witness :
    docKeyOf (mkUri ['h','t','t','p'] ['x'] [] ['/','a'] [])
      = docKeyOf (mkUri ['h','t','t','p','s'] ['y'] ['8','0'] ['/','a']
          ['k','=','v']) ∧
    docKeyOf (encodeL [] ['/','b']) = docKeyOf ['/','b'] :=
  docKey_depends_only_on_path
    ['h','t','t','p'] ['x'] [] [] ['h','t','t','p','s'] ['y'] ['8','0']
    ['k','=','v'] ['/','a'] ['/','a'] ['/','b'] ['/','b']
    (by unfold alphaLower; decide) (by decide) (by decide)
    (by unfold hostOk; decide) (by unfold portOk; decide)
    (by unfold queryOk; decide)
    (by unfold alphaLower; decide) (by decide) (by decide)
    (by unfold hostOk; decide) (by unfold portOk; decide)
    (by unfold queryOk; decide)
    (by decide) (by decide) (by decide) (by decide) (by decide)
    (by decide) (by decide)

end DocBroker
